import Mathlib

/-!
Diffuse particle simulation: attribute store, compaction and defaults.

A shallow embedding of the parts of `src/engine/diffuseparticlesimulation.h`
and `src/engine/c_bindings/forcefieldvolume_c.cpp` that the properties below
are about.

Conventions of the embedding.

* A `FragmentedVector<T>` / `std::vector<T>` is a `List T`; `operator[]` is an
  unchecked access, so an index outside the vector is recorded as undefined
  behaviour of the call instead of being given a value.
* The index variables of `_removeItemsFromVector` (`unsigned int i`,
  `int currentidx`, `int numRemoved`) are mathematical integers.  This is exact
  as long as the vector holds fewer than `2^31` items, as it does for every
  particle count within the limit of the engine
  (`_maxNumDiffuseParticlesLimit = 357e6`).
* `vmath::vec3` and `float` values are only copied by the code modelled here,
  so their types are parameters.
* The arithmetic of `_randomDouble` is IEEE-754 double arithmetic on finite
  values: exact results rounded to nearest, ties to even.
-/

namespace FlipFluids

/-! ## `_removeItemsFromVector` (diffuseparticlesimulation.h, lines 411-428) -/

/-- How a call of `_removeItemsFromVector` ends. -/
inductive Outcome where
  /-- the call ran to its end -/
  | completed
  /-- `FLUIDSIM_ASSERT` stopped the call -/
  | assertionFailed
  /-- an unchecked access left the vector, or `pop_back` met an empty vector -/
  | undefinedBehaviour
  deriving DecidableEq, Repr

/-- The vector `items` as the call leaves it, together with how the call ended. -/
structure Run (T : Type) where
  items : List T
  outcome : Outcome
  deriving Repr

/-- The first loop of `_removeItemsFromVector`, entered at read index `i` with
write index `currentidx`:
`for (; i < items.size(); i++) if (!isRemoved[i]) { items[currentidx] = items[i]; currentidx++; }`.
Returns the vector and `currentidx` at loop exit, or `none` when an access is
out of bounds. -/
def compactLoop {T : Type} (isRemoved : List Bool) (i : Nat) (items : List T)
    (currentidx : Nat) : Option (List T × Nat) :=
  if h : i < items.length then
    match isRemoved[i]? with
    | none => none
    | some true => compactLoop isRemoved (i + 1) items currentidx
    | some false =>
      if currentidx < items.length then
        compactLoop isRemoved (i + 1) (items.set currentidx items[i]) (currentidx + 1)
      else none
  else some (items, currentidx)
termination_by items.length - i
decreasing_by
  all_goals simp_wf
  all_goals omega

/-- The second loop of `_removeItemsFromVector`, entered at counter `i`:
`for (; i < numRemoved; i++) items.pop_back();`.
Returns `none` when `pop_back` is applied to an empty vector. -/
def popLoop {T : Type} (numRemoved : Int) (i : Int) (items : List T) : Option (List T) :=
  if i < numRemoved then
    match items with
    | [] => none
    | _ :: _ => popLoop numRemoved (i + 1) items.dropLast
  else some items
termination_by (numRemoved - i).toNat
decreasing_by
  all_goals simp_wf
  all_goals omega

/-- Modelled from the spec: `FLUIDSIM_ASSERT(cond)`, a macro defined outside
`src/`; an invariant violation is "caught by assertion" and is "not recoverable
at runtime", so the call stops there when `cond` is false and goes on
otherwise.  The result is `true` when the call goes on. -/
def FLUIDSIM_ASSERT (cond : Bool) : Bool := cond

/-- The template `_removeItemsFromVector(items, isRemoved)`.  `shrink_to_fit`
changes the capacity only and is not represented. -/
def _removeItemsFromVector {T : Type} (items : List T) (isRemoved : List Bool) : Run T :=
  if FLUIDSIM_ASSERT (decide (items.length = isRemoved.length)) then
    match compactLoop isRemoved 0 items 0 with
    | none => ⟨items, Outcome.undefinedBehaviour⟩
    | some (items1, currentidx) =>
      let numRemoved : Int := (items1.length : Int) - (currentidx : Int)
      match popLoop numRemoved 0 items1 with
      | none => ⟨items1, Outcome.undefinedBehaviour⟩
      | some items2 => ⟨items2, Outcome.completed⟩
  else ⟨items, Outcome.assertionFailed⟩

/-- The subsequence of `items` whose flag in `isRemoved` is false, in the
original order: the stable filter that the compaction is compared with. -/
def keepUnflagged {T : Type} : List T → List Bool → List T
  | x :: items, false :: isRemoved => x :: keepUnflagged items isRemoved
  | _ :: items, true :: isRemoved => keepUnflagged items isRemoved
  | _, _ => []

/-- The index of the `k`-th (counting from 0) unflagged entry of the mask
`isRemoved`, when there is one. -/
def kthUnflagged : List Bool → Nat → Option Nat
  | [], _ => none
  | true :: isRemoved, k => (kthUnflagged isRemoved k).map (· + 1)
  | false :: _, 0 => some 0
  | false :: isRemoved, k + 1 => (kthUnflagged isRemoved k).map (· + 1)

/-! ## `DiffuseParticleAttributes` (diffuseparticlesimulation.h, lines 305-321) -/

/-- A `char` or `unsigned char` value, as its 8-bit pattern. -/
abbrev Char8 := Fin 256

/-- The type `enum class DiffuseParticleType : char` (declared at line 44).
Its underlying type is fixed to `char`, so every `char` value is a value of the
enumeration and the cast `(DiffuseParticleType)c` keeps the value. -/
structure DiffuseParticleType where
  code : Char8
  deriving DecidableEq, Repr

/-- Modelled from the spec: the enumerators of `DiffuseParticleType`, which
are defined in `diffuseparticle.h`, outside `src/`.  The spec names four
types, "foam, bubble, spray, dust"; their numeric values are not given and
are left open. -/
structure DiffuseParticleTypeEnumerators where
  foam : DiffuseParticleType
  bubble : DiffuseParticleType
  spray : DiffuseParticleType
  dust : DiffuseParticleType

/-- Modelled from the spec: the record `DiffuseParticle` of `diffuseparticle.h`
(outside `src/`): "position (3D vector), velocity (3D vector), lifetime
(remaining seconds, float), type, id (8-bit wrapping counter)".  These are
also the five members that `getDiffuseParticle` assigns. -/
structure DiffuseParticle (Vec3 Float32 : Type) where
  position : Vec3
  velocity : Vec3
  lifetime : Float32
  type : DiffuseParticleType
  id : Char8

/-- The struct `DiffuseParticleAttributes`.  Each pointer member is
represented by the vector it points to. -/
structure DiffuseParticleAttributes (Vec3 Float32 : Type) where
  positions : List Vec3
  velocities : List Vec3
  lifetimes : List Float32
  types : List Char8
  ids : List Char8

/-- The exception thrown by `std::vector::at`. -/
inductive StdException where
  | out_of_range
  deriving DecidableEq, Repr

/-- The checked access `v.at(index)` of `std::vector`. -/
def vectorAt {A : Type} (v : List A) (index : Nat) : Except StdException A :=
  match v[index]? with
  | some a => Except.ok a
  | none => Except.error StdException.out_of_range

/-- The member function `DiffuseParticleAttributes::getDiffuseParticle(index)`.
The second component is the attribute store after the call. -/
def getDiffuseParticle {Vec3 Float32 : Type} (self : DiffuseParticleAttributes Vec3 Float32)
    (index : Nat) :
    Except StdException (DiffuseParticle Vec3 Float32) × DiffuseParticleAttributes Vec3 Float32 :=
  let result : Except StdException (DiffuseParticle Vec3 Float32) := do
    let position ← vectorAt self.positions index
    let velocity ← vectorAt self.velocities index
    let lifetime ← vectorAt self.lifetimes index
    let type ← vectorAt self.types index
    let id ← vectorAt self.ids index
    pure { position := position, velocity := velocity, lifetime := lifetime,
           type := DiffuseParticleType.mk type, id := id }
  (result, self)

/-- Every attribute array compacted with `_removeItemsFromVector` under one and
the same mask. -/
def compactAttributes {Vec3 Float32 : Type} (a : DiffuseParticleAttributes Vec3 Float32)
    (isRemoved : List Bool) : DiffuseParticleAttributes Vec3 Float32 :=
  { positions := (_removeItemsFromVector a.positions isRemoved).items,
    velocities := (_removeItemsFromVector a.velocities isRemoved).items,
    lifetimes := (_removeItemsFromVector a.lifetimes isRemoved).items,
    types := (_removeItemsFromVector a.types isRemoved).items,
    ids := (_removeItemsFromVector a.ids isRemoved).items }

/-! ## Configuration members of `DiffuseParticleSimulation` -/

/-- The type `enum class LimitBehaviour : char` (lines 75-79); as for
`DiffuseParticleType`, a value is a `char`. -/
structure LimitBehaviour where
  code : Char8
  deriving DecidableEq, Repr

/-- The enumerator `collide = 0x00`. -/
def LimitBehaviour.collide : LimitBehaviour := ⟨0x00⟩

/-- The enumerator `ballistic = 0x01`. -/
def LimitBehaviour.ballistic : LimitBehaviour := ⟨0x01⟩

/-- The enumerator `kill = 0x02`. -/
def LimitBehaviour.kill : LimitBehaviour := ⟨0x02⟩

/-- The data members of `DiffuseParticleSimulation` that the properties below
read, each with its default member initializer (lines 458-470, 502-503,
505-518 and 541-542).  A member of type `double` holds the decimal value of
its initializer, as a rational number. -/
structure DiffuseParticleSimulation where
  _maxNumDiffuseParticles : Nat := 10000000
  _maxNumDiffuseParticlesLimit : Nat := 357000000
  _foamLimitBehaviour : LimitBehaviour := LimitBehaviour.collide
  _bubbleLimitBehaviour : LimitBehaviour := LimitBehaviour.collide
  _sprayLimitBehaviour : LimitBehaviour := LimitBehaviour.collide
  _dustLimitBehaviour : LimitBehaviour := LimitBehaviour.collide
  _foamActiveSides : List Bool := [true, true, true, true, true, true]
  _bubbleActiveSides : List Bool := [true, true, true, true, true, true]
  _sprayActiveSides : List Bool := [true, true, true, true, true, true]
  _dustActiveSides : List Bool := [true, true, true, true, true, true]
  _foamBoundaryCollisions : List Bool := [true, true, true, true, true, true]
  _bubbleBoundaryCollisions : List Bool := [true, true, true, true, true, true]
  _sprayBoundaryCollisions : List Bool := [true, true, true, true, true, true]
  _dustBoundaryCollisions : List Bool := [true, true, true, true, true, true]
  _currentDiffuseParticleID : Int := 0
  _diffuseParticleIDLimit : Int := 256
  _minWavecrestCurvature : ℚ := 0.4
  _maxWavecrestCurvature : ℚ := 1.0
  _minParticleEnergy : ℚ := 0.1
  _maxParticleEnergy : ℚ := 60.0
  _minTurbulence : ℚ := 100.0
  _maxTurbulence : ℚ := 200.0
  _minDustTurbulenceFactor : ℚ := 0.75
  _maxDustTurbulenceFactor : ℚ := 1.0
  _minDiffuseParticleLifetime : ℚ := 0.0
  _maxDiffuseParticleLifetime : ℚ := 7.0
  _minFoamDensity : ℚ := 20
  _maxFoamDensity : ℚ := 45

/-- A freshly constructed simulation: every member has the value of its
default member initializer. -/
def DiffuseParticleSimulation.fresh : DiffuseParticleSimulation := {}

/-! ## The particle id counter -/

/-- The conversion `(unsigned char)x` of an `int`: the value modulo 256. -/
def toUnsignedChar (x : Int) : Char8 :=
  ⟨(x % 256).toNat, by omega⟩

/-- Modelled from the spec: `_getDiffuseParticleID()`, declared at line 360
with its body outside `src/`.  "id is an unsigned 8-bit counter that wraps
modulo a configurable limit (default 256)" and "Id is the next value of a
wrapping counter shared across all types": the call returns the current
counter value as an `unsigned char` and advances the counter by one modulo
`_diffuseParticleIDLimit`. -/
def _getDiffuseParticleID (s : DiffuseParticleSimulation) :
    Char8 × DiffuseParticleSimulation :=
  let id := s._currentDiffuseParticleID
  (toUnsignedChar id,
   { s with _currentDiffuseParticleID :=
              (s._currentDiffuseParticleID + 1) % s._diffuseParticleIDLimit })

/-- The values returned by `n` successive calls of `_getDiffuseParticleID`,
starting in state `s`. -/
def successiveIDs : Nat → DiffuseParticleSimulation → List Char8
  | 0, _ => []
  | n + 1, s => (_getDiffuseParticleID s).1 :: successiveIDs n (_getDiffuseParticleID s).2

/-! ## One simulation step -/

/-- Modelled from the spec: `getMaxNumDiffuseParticles()`, declared at line
153 with its body outside `src/`: the configured "max particle count". -/
def getMaxNumDiffuseParticles (s : DiffuseParticleSimulation) : Nat :=
  s._maxNumDiffuseParticles

/-- Modelled from the spec: what one step receives from the components whose
code is outside `src/`, for particles of type `P`: the new particles proposed
by the emitters in their (shuffled) order, the per-particle maps of the
Advection Engine, the Classifier and the ageing of the Lifecycle Manager, and
the two removal tests "lifetime ≤ 0" and "limit-behavior == kill AND particle
exited an inactive/open boundary side". -/
structure StepInputs (P : Type) where
  candidates : List P
  advect : P → P
  classify : P → P
  age : P → P
  expired : P → Bool
  killed : P → Bool

/-- The simulation object together with the diffuse particles it holds
(`_diffuseParticles`), as a sequence of particle records. -/
structure SimulationState (P : Type) where
  config : DiffuseParticleSimulation
  particles : List P

/-- Modelled from the spec: the Emission Engine's ceiling.  "Emission stops
accepting new particles once the running total would exceed the configured
maximum; excess candidates are silently dropped". -/
def emitDiffuseParticles {P : Type} (maxNum : Nat) (particles candidates : List P) : List P :=
  candidates.foldl
    (fun acc c => if acc.length + 1 ≤ maxNum then acc ++ [c] else acc) particles

/-- Modelled from the spec: the removal mask of the Lifecycle Manager, for the
particles from index `i` on.  "Mark for removal: lifetime ≤ 0, OR
(limit-behavior == kill AND particle exited an inactive/open boundary side),
OR particle index beyond the retained maximum after a global excess trim". -/
def removalMask {P : Type} (maxNum : Nat) (expired killed : P → Bool) :
    Nat → List P → List Bool
  | _, [] => []
  | i, p :: ps =>
    (expired p || killed p || decide (maxNum ≤ i))
      :: removalMask maxNum expired killed (i + 1) ps

/-- Modelled from the spec: `update(params)`, declared at line 88 with its
body outside `src/`.  "Emission Engine adds particles to Attribute Store →
Advection Engine integrates forces/collisions → Classifier retags types →
Lifecycle Manager ages/culls"; removal "performs a single-pass stable
compaction", which is `_removeItemsFromVector`. -/
def update {P : Type} (inputs : StepInputs P) (st : SimulationState P) : SimulationState P :=
  let maxNum := getMaxNumDiffuseParticles st.config
  let emitted := emitDiffuseParticles maxNum st.particles inputs.candidates
  let advected := emitted.map inputs.advect
  let classified := advected.map inputs.classify
  let aged := classified.map inputs.age
  let isRemoved := removalMask maxNum inputs.expired inputs.killed 0 aged
  { st with particles := (_removeItemsFromVector aged isRemoved).items }

/-! ## `ForceFieldVolume_new` (c_bindings/forcefieldvolume_c.cpp, lines 36-48) -/

/-- What the expression `new ForceFieldVolume()` does: it yields an object,
or it raises a `std::exception`.  The class is defined outside `src/`, so the
result of the construction is an input of the model. -/
inductive Construction (Obj Exn : Type) where
  | constructed (obj : Obj)
  | raised (ex : Exn)

/-- The memory that `ForceFieldVolume_new` writes: the cell `*err`, and the
state kept by `CBindings` (its recorded error message). -/
structure BindingState (Msg : Type) where
  err : Int
  bindings : Msg

/-- The function `ForceFieldVolume_new(err)`.  `SUCCESS`, `FAIL` and
`set_error_message` belong to `CBindings` (`cbindings.h`, outside `src/`) and
are parameters.  The returned pointer is `none` for `nullptr`. -/
def ForceFieldVolume_new {Obj Exn Msg : Type} (SUCCESS FAIL : Int)
    (set_error_message : Exn → Msg → Msg) (construction : Construction Obj Exn)
    (st : BindingState Msg) : Option Obj × BindingState Msg :=
  let st1 := { st with err := SUCCESS }
  let ffv : Option Obj := none
  match construction with
  | Construction.constructed obj => (some obj, st1)
  | Construction.raised ex =>
    let st2 := { st1 with bindings := set_error_message ex st1.bindings }
    let st3 := { st2 with err := FAIL }
    (ffv, st3)

/-! ## Instrumented loops of `_removeItemsFromVector` -/

/-- The pairs `(i, currentidx)` with which the body of the first loop of
`_removeItemsFromVector` is entered, in order.  The control flow is that of
`compactLoop`. -/
def compactLoopTrace {T : Type} (isRemoved : List Bool) (i : Nat) (items : List T)
    (currentidx : Nat) : List (Nat × Nat) :=
  if h : i < items.length then
    (i, currentidx) ::
      match isRemoved[i]? with
      | none => []
      | some true => compactLoopTrace isRemoved (i + 1) items currentidx
      | some false =>
        if currentidx < items.length then
          compactLoopTrace isRemoved (i + 1) (items.set currentidx items[i]) (currentidx + 1)
        else []
  else []
termination_by items.length - i
decreasing_by
  all_goals simp_wf
  all_goals omega

/-- The number of `pop_back` calls that the second loop of
`_removeItemsFromVector` makes on a non-empty vector.  The control flow is that
of `popLoop`. -/
def popBackCalls {T : Type} (numRemoved : Int) (i : Int) (items : List T) : Nat :=
  if i < numRemoved then
    match items with
    | [] => 0
    | _ :: _ => popBackCalls numRemoved (i + 1) items.dropLast + 1
  else 0
termination_by (numRemoved - i).toNat
decreasing_by
  all_goals simp_wf
  all_goals omega

/-! ## Machine integers -/

/-- The value that a 32-bit two's complement `int` holds after it is assigned
the mathematical integer `x`. -/
def wrapInt32 (x : Int) : Int :=
  (x + 2147483648) % 4294967296 - 2147483648

/-- The value that a 32-bit `unsigned int` holds after it is assigned the
mathematical integer `x`. -/
def wrapUInt32 (x : Int) : Int :=
  x % 4294967296

/-! ## IEEE-754 double arithmetic

A finite `double` is given by its value, a rational number.  Every conversion
and arithmetic operation yields the exact result rounded to the nearest
double, ties to the even significand; a result that is not a finite double
(an overflow to infinity, or a division by zero) is `none`.  Each operation is
rounded on its own, to 53 significant bits. -/

/-- The integer nearest to `q`, the even one of the two when `q` is half-way
between two integers. -/
def roundHalfEven (q : ℚ) : Int :=
  if q - ⌊q⌋ < 1 / 2 then ⌊q⌋
  else if 1 / 2 < q - ⌊q⌋ then ⌊q⌋ + 1
  else if ⌊q⌋ % 2 = 0 then ⌊q⌋ else ⌊q⌋ + 1

/-- The binary exponent of the doubles around the magnitude `a`: the `e` with
`2^e ≤ a < 2^(e+1)`, and `-1022`, the exponent of the subnormal doubles, below
`2^(-1022)`. -/
def doubleExponent (a : ℚ) : Int := max (Int.log 2 a) (-1022)

/-- The distance between neighbouring doubles around the magnitude `a`: the
significand has 53 bits. -/
def doubleUlp (a : ℚ) : ℚ := 2 ^ (doubleExponent a - 52)

/-- The magnitude `a ≥ 0` rounded to the grid of doubles around it, before the
test for overflow. -/
def roundMagnitude (a : ℚ) : ℚ := (roundHalfEven (a / doubleUlp a) : ℚ) * doubleUlp a

/-- The double nearest to `q` (round to nearest, ties to even), or `none` when
the rounded magnitude reaches `2^1024`, where the result is an infinity. -/
def roundToDouble (q : ℚ) : Option ℚ :=
  if roundMagnitude |q| < 2 ^ 1024 then
    some (if q < 0 then -roundMagnitude |q| else roundMagnitude |q|)
  else none

/-! ## `_randomDouble` (diffuseparticlesimulation.h, lines 430-432) -/

/-- The function `_randomDouble(min, max)`:
`min + ((double)rand() / (double)RAND_MAX) * (max - min)` in double arithmetic.
The value `r` returned by `rand()` and the constant `RAND_MAX` of the C library
are inputs; `min` and `max` are doubles, given by their values.  The result is
`none` when it is not a finite double. -/
def _randomDouble (RAND_MAX r : Int) (min max : ℚ) : Option ℚ := do
  let x ← roundToDouble (r : ℚ)
  let y ← roundToDouble (RAND_MAX : ℚ)
  let t ← if y = 0 then none else roundToDouble (x / y)
  let d ← roundToDouble (max - min)
  let p ← roundToDouble (t * d)
  roundToDouble (min + p)

/-- A small attribute store of three particles, used to instantiate the
statements below. -/
def sampleAttributes : DiffuseParticleAttributes Nat Nat :=
  { positions := [1, 2, 3], velocities := [4, 5, 6], lifetimes := [7, 8, 9],
    types := [0, 1, 2], ids := [10, 11, 12] }

/-! ## Proofs -/

theorem keepUnflagged_nil_left {T : Type} (isRemoved : List Bool) :
    keepUnflagged ([] : List T) isRemoved = [] := by
  cases isRemoved <;> rfl

theorem keepUnflagged_length_le {T : Type} (items : List T) :
    ∀ isRemoved : List Bool, (keepUnflagged items isRemoved).length ≤ items.length := by
  induction items with
  | nil => intro m; simp [keepUnflagged_nil_left]
  | cons x xs ih =>
    intro m
    match m with
    | [] => simp [keepUnflagged]
    | true :: ms => simp only [keepUnflagged, List.length_cons]; have := ih ms; omega
    | false :: ms => simp only [keepUnflagged, List.length_cons]; have := ih ms; omega

theorem take_succ_set {T : Type} (l : List T) (n : Nat) (a : T) (h : n < l.length) :
    (l.set n a).take (n + 1) = l.take n ++ [a] := by
  rw [List.set_eq_take_append_cons_drop, if_pos h]
  have hlen : (List.take n l).length = n := by simp; omega
  rw [List.take_append_eq_append_take, hlen]
  simp [List.take_of_length_le, hlen]

/-- Invariant of the first loop: entered at read index `i` and write index
`currentidx ≤ i`, it leaves the length unchanged, advances `currentidx` by the
number of unflagged items from `i` on, and stores these items, in order, right
after the first `currentidx` items. -/
theorem compactLoop_spec {T : Type} (isRemoved : List Bool) :
    ∀ (n i : Nat) (items : List T) (currentidx : Nat),
      n = items.length - i → currentidx ≤ i → i ≤ items.length →
      items.length = isRemoved.length →
      ∃ items1 : List T,
        compactLoop isRemoved i items currentidx
          = some (items1, currentidx
              + (keepUnflagged (items.drop i) (isRemoved.drop i)).length)
        ∧ items1.length = items.length
        ∧ items1.take (currentidx
              + (keepUnflagged (items.drop i) (isRemoved.drop i)).length)
          = items.take currentidx ++ keepUnflagged (items.drop i) (isRemoved.drop i) := by
  intro n
  induction n with
  | zero =>
    intro i items cur hn _ hi hlen
    have hi2 : ¬ i < items.length := by omega
    refine ⟨items, ?_, rfl, ?_⟩
    · rw [compactLoop, dif_neg hi2]
      simp [List.drop_of_length_le (Nat.le_of_not_lt hi2), keepUnflagged_nil_left]
    · simp [List.drop_of_length_le (Nat.le_of_not_lt hi2), keepUnflagged_nil_left]
  | succ n ih =>
    intro i items cur hn hcur hi hlen
    have hi2 : i < items.length := by omega
    have hi3 : i < isRemoved.length := by omega
    have hdi : items.drop i = items[i] :: items.drop (i + 1) := List.drop_eq_getElem_cons hi2
    have hdm : isRemoved.drop i = isRemoved[i] :: isRemoved.drop (i + 1) :=
      List.drop_eq_getElem_cons hi3
    have hget : isRemoved[i]? = some isRemoved[i] := List.getElem?_eq_getElem hi3
    rw [compactLoop, dif_pos hi2, hget, hdi, hdm]
    cases hb : isRemoved[i] with
    | true =>
      obtain ⟨items1, h1, h2, h3⟩ := ih (i + 1) items cur (by omega) (by omega) (by omega) hlen
      refine ⟨items1, ?_, h2, ?_⟩
      · simpa [keepUnflagged] using h1
      · simpa [keepUnflagged] using h3
    | false =>
      have hcl : cur < items.length := by omega
      have hset : (items.set cur items[i]).drop (i + 1) = items.drop (i + 1) := by
        rw [List.drop_set, if_pos (by omega)]
      obtain ⟨items1, h1, h2, h3⟩ := ih (i + 1) (items.set cur items[i]) (cur + 1)
        (by simp; omega) (by omega) (by simp; omega) (by simpa using hlen)
      rw [hset] at h1 h3
      rw [take_succ_set items cur items[i] hcl] at h3
      refine ⟨items1, ?_, by simpa using h2, ?_⟩
      · simp only [if_pos hcl, keepUnflagged, List.length_cons]
        rw [h1]; congr 2; omega
      · simp only [keepUnflagged, List.length_cons]
        rw [show cur + ((keepUnflagged (List.drop (i + 1) items)
              (List.drop (i + 1) isRemoved)).length + 1)
            = cur + 1 + (keepUnflagged (List.drop (i + 1) items)
              (List.drop (i + 1) isRemoved)).length by omega, h3]
        simp

/-- The second loop removes the last `numRemoved - i` items when that many are
there. -/
theorem popLoop_spec {T : Type} (numRemoved : Int) :
    ∀ (k : Nat) (i : Int) (items : List T),
      (numRemoved - i).toNat = k → k ≤ items.length →
      popLoop numRemoved i items = some (items.take (items.length - k)) := by
  intro k
  induction k with
  | zero =>
    intro i items hk _
    have : ¬ i < numRemoved := by omega
    rw [popLoop.eq_def, if_neg this]; simp
  | succ k ih =>
    intro i items hk hlen
    have hlt : i < numRemoved := by omega
    rw [popLoop.eq_def, if_pos hlt]
    match items, hlen with
    | x :: xs, hlen =>
      simp only
      rw [ih (i + 1) (x :: xs).dropLast (by omega) (by simp at hlen ⊢; omega)]
      rw [List.dropLast_eq_take, List.take_take]
      simp only [List.length_take, List.length_cons]
      congr 2
      simp at hlen
      omega

/-- On vectors of equal size the compaction completes and leaves exactly the
unflagged items, in their original order. -/
theorem removeItems_eq {T : Type} (items : List T) (isRemoved : List Bool)
    (hlen : items.length = isRemoved.length) :
    _removeItemsFromVector items isRemoved
      = ⟨keepUnflagged items isRemoved, Outcome.completed⟩ := by
  obtain ⟨items1, h1, h2, h3⟩ :=
    compactLoop_spec isRemoved items.length 0 items 0 (by simp) (by simp) (by simp) hlen
  simp only [List.drop_zero, Nat.zero_add, List.take_zero, List.nil_append] at h1 h3
  have hle := keepUnflagged_length_le items isRemoved
  unfold _removeItemsFromVector FLUIDSIM_ASSERT
  rw [if_pos (by simpa using hlen), h1]
  simp only
  rw [popLoop_spec _ (items.length - (keepUnflagged items isRemoved).length) 0 items1
    (by rw [h2]; omega) (by rw [h2]; omega)]
  simp only
  rw [h2, show items.length - (items.length - (keepUnflagged items isRemoved).length)
    = (keepUnflagged items isRemoved).length by omega, h3]

theorem keepUnflagged_eq_filter {T : Type} (items : List T) :
    ∀ isRemoved : List Bool,
      keepUnflagged items isRemoved
        = ((items.zip isRemoved).filter (fun p => !p.2)).map Prod.fst := by
  induction items with
  | nil => intro m; simp [keepUnflagged_nil_left]
  | cons x xs ih =>
    intro m
    match m with
    | [] => simp [keepUnflagged]
    | true :: ms => simp [keepUnflagged, ih ms]
    | false :: ms => simp [keepUnflagged, ih ms]

theorem keepUnflagged_length_add {T : Type} (items : List T) :
    ∀ isRemoved : List Bool, items.length = isRemoved.length →
      (keepUnflagged items isRemoved).length + isRemoved.count true = isRemoved.length := by
  induction items with
  | nil =>
    intro m h
    have : m = [] := List.length_eq_zero.mp (by simpa using h.symm)
    subst this; simp [keepUnflagged]
  | cons x xs ih =>
    intro m h
    match m, h with
    | true :: ms, h =>
      have := ih ms (by simpa using h)
      simp only [keepUnflagged, List.count_cons_self, List.length_cons]; omega
    | false :: ms, h =>
      have := ih ms (by simpa using h)
      simp only [keepUnflagged, List.length_cons, List.count_cons]; simp; omega

theorem kthUnflagged_spec :
    ∀ (isRemoved : List Bool) (k j : Nat), kthUnflagged isRemoved k = some j →
      j < isRemoved.length ∧ isRemoved[j]? = some false
        ∧ (isRemoved.take j).count false = k := by
  intro m
  induction m with
  | nil => intro k j h; simp [kthUnflagged] at h
  | cons b ms ih =>
    intro k j h
    match b, k, h with
    | true, k, h =>
      simp only [kthUnflagged, Option.map_eq_some'] at h
      obtain ⟨j0, h0, rfl⟩ := h
      obtain ⟨h1, h2, h3⟩ := ih k j0 h0
      refine ⟨by simpa using h1, by simpa using h2, ?_⟩
      simp [List.take_succ_cons, List.count_cons, h3]
    | false, 0, h =>
      simp only [kthUnflagged, Option.some.injEq] at h
      subst h; simp
    | false, k + 1, h =>
      simp only [kthUnflagged, Option.map_eq_some'] at h
      obtain ⟨j0, h0, rfl⟩ := h
      obtain ⟨h1, h2, h3⟩ := ih k j0 h0
      refine ⟨by simpa using h1, by simpa using h2, ?_⟩
      simp [List.take_succ_cons, List.count_cons, h3]

theorem keepUnflagged_getElem {T : Type} (items : List T) :
    ∀ (isRemoved : List Bool) (k : Nat), items.length = isRemoved.length →
      k < (keepUnflagged items isRemoved).length →
      ∃ j, kthUnflagged isRemoved k = some j
        ∧ (keepUnflagged items isRemoved)[k]? = items[j]? := by
  induction items with
  | nil => intro m k _ hk; simp [keepUnflagged_nil_left] at hk
  | cons x xs ih =>
    intro m k h hk
    match m, k, h, hk with
    | true :: ms, k, h, hk =>
      obtain ⟨j, h1, h2⟩ := ih ms k (by simpa using h) (by simpa [keepUnflagged] using hk)
      exact ⟨j + 1, by simp [kthUnflagged, h1], by simpa [keepUnflagged] using h2⟩
    | false :: ms, 0, h, hk => exact ⟨0, by simp [kthUnflagged], by simp [keepUnflagged]⟩
    | false :: ms, k + 1, h, hk =>
      obtain ⟨j, h1, h2⟩ := ih ms k (by simpa using h) (by simpa [keepUnflagged] using hk)
      exact ⟨j + 1, by simp [kthUnflagged, h1], by simpa [keepUnflagged] using h2⟩

theorem vectorAt_of_getElem? {A : Type} (v : List A) (i : Nat) (a : A) (h : v[i]? = some a) :
    vectorAt v i = Except.ok a := by
  simp [vectorAt, h]

/-! ## Compaction: `_removeItemsFromVector` -/

/-- C1: for items and a removal mask of the same length,
`_removeItemsFromVector` completes and leaves `items` equal to the subsequence
of the original items whose flag is false, in the original order: the result
is the stable filter of the original sequence by the negated mask. -/
theorem removeItems_is_stable_filter {T : Type} (items : List T) (isRemoved : List Bool)
    (hlen : items.length = isRemoved.length) :
    (_removeItemsFromVector items isRemoved).outcome = Outcome.completed
      ∧ (_removeItemsFromVector items isRemoved).items
          = ((items.zip isRemoved).filter (fun p => !p.2)).map Prod.fst := by
  rw [removeItems_eq items isRemoved hlen]
  exact ⟨rfl, keepUnflagged_eq_filter items isRemoved⟩

theorem removeItems_is_stable_filter_witness :
    (_removeItemsFromVector [10, 20, 30, 40, 50] [false, true, true, false, false]).outcome
        = Outcome.completed
      ∧ (_removeItemsFromVector [10, 20, 30, 40, 50] [false, true, true, false, false]).items
        = [10, 40, 50] :=
  removeItems_is_stable_filter [10, 20, 30, 40, 50] [false, true, true, false, false] rfl

/-- C2: for a family of attribute arrays that all have length `n` and a mask
of length `n`, compacting each array under that mask completes and gives every
array the length `n` minus the number of true flags; so the compacted arrays
again have one common length, and no array grows. -/
theorem compaction_keeps_lengths_equal {ι : Type} (T : ι → Type)
    (arrays : (a : ι) → List (T a)) (n : Nat) (isRemoved : List Bool)
    (harrays : ∀ a, (arrays a).length = n) (hmask : isRemoved.length = n) :
    (∀ a, (_removeItemsFromVector (arrays a) isRemoved).outcome = Outcome.completed
        ∧ (_removeItemsFromVector (arrays a) isRemoved).items.length
            = n - isRemoved.count true)
      ∧ (∀ a b, (_removeItemsFromVector (arrays a) isRemoved).items.length
            = (_removeItemsFromVector (arrays b) isRemoved).items.length)
      ∧ (∀ a, (_removeItemsFromVector (arrays a) isRemoved).items.length
            ≤ (arrays a).length) := by
  have key : ∀ a, (_removeItemsFromVector (arrays a) isRemoved).outcome = Outcome.completed
      ∧ (_removeItemsFromVector (arrays a) isRemoved).items.length
          = n - isRemoved.count true := by
    intro a
    have hl : (arrays a).length = isRemoved.length := by rw [harrays a, hmask]
    rw [removeItems_eq (arrays a) isRemoved hl]
    have := keepUnflagged_length_add (arrays a) isRemoved hl
    exact ⟨rfl, by simp only; omega⟩
  refine ⟨key, fun a b => by rw [(key a).2, (key b).2], fun a => ?_⟩
  rw [(key a).2, harrays a]
  omega

theorem compaction_keeps_lengths_equal_witness :
    (∀ a : Bool, (_removeItemsFromVector (cond a [1, 2, 3] [7, 8, 9])
          [true, false, true]).outcome = Outcome.completed
        ∧ (_removeItemsFromVector (cond a [1, 2, 3] [7, 8, 9])
          [true, false, true]).items.length = 3 - [true, false, true].count true)
      ∧ (∀ a b : Bool, (_removeItemsFromVector (cond a [1, 2, 3] [7, 8, 9])
          [true, false, true]).items.length
            = (_removeItemsFromVector (cond b [1, 2, 3] [7, 8, 9])
          [true, false, true]).items.length)
      ∧ (∀ a : Bool, (_removeItemsFromVector (cond a [1, 2, 3] [7, 8, 9])
          [true, false, true]).items.length ≤ (cond a [1, 2, 3] [7, 8, 9]).length) :=
  compaction_keeps_lengths_equal (fun _ : Bool => Nat) (fun a => cond a [1, 2, 3] [7, 8, 9])
    3 [true, false, true] (fun a => by cases a <;> rfl) rfl

/-- C4: `_removeItemsFromVector` fails its assertion exactly when the sizes of
`items` and `isRemoved` differ; when it does, `items` is as it was passed in
(nothing written, nothing removed); when the sizes are equal the call
completes. -/
theorem removeItems_assertion (T : Type) :
    (∀ (items : List T) (isRemoved : List Bool),
        (_removeItemsFromVector items isRemoved).outcome = Outcome.assertionFailed
          ↔ items.length ≠ isRemoved.length)
      ∧ (∀ (items : List T) (isRemoved : List Bool),
        (_removeItemsFromVector items isRemoved).outcome = Outcome.assertionFailed
          → (_removeItemsFromVector items isRemoved).items = items)
      ∧ (∀ (items : List T) (isRemoved : List Bool),
        items.length = isRemoved.length
          → (_removeItemsFromVector items isRemoved).outcome = Outcome.completed) := by
  have hne : ∀ (items : List T) (isRemoved : List Bool), items.length ≠ isRemoved.length →
      _removeItemsFromVector items isRemoved = ⟨items, Outcome.assertionFailed⟩ := by
    intro items isRemoved h
    unfold _removeItemsFromVector FLUIDSIM_ASSERT
    rw [if_neg (by simpa using h)]
  refine ⟨fun items isRemoved => ⟨fun h => ?_, fun h => by rw [hne items isRemoved h]⟩,
    fun items isRemoved h => ?_, fun items isRemoved h => by rw [removeItems_eq items isRemoved h]⟩
  · intro heq
    rw [removeItems_eq items isRemoved heq] at h
    cases h
  · by_cases heq : items.length = isRemoved.length
    · rw [removeItems_eq items isRemoved heq] at h
      cases h
    · rw [hne items isRemoved heq]

theorem removeItems_assertion_witness :
    ((_removeItemsFromVector [1, 2, 3] [true, false]).outcome = Outcome.assertionFailed
        ↔ [1, 2, 3].length ≠ [true, false].length)
      ∧ (_removeItemsFromVector [1, 2, 3] [true, false]).items = [1, 2, 3]
      ∧ (_removeItemsFromVector [1, 2, 3] [true, false, false]).outcome
          = Outcome.completed :=
  ⟨(removeItems_assertion Nat).1 [1, 2, 3] [true, false],
   (removeItems_assertion Nat).2.1 [1, 2, 3] [true, false]
     (((removeItems_assertion Nat).1 [1, 2, 3] [true, false]).2 (by decide)),
   (removeItems_assertion Nat).2.2 [1, 2, 3] [true, false, false] rfl⟩

/-! ## The attribute store: `getDiffuseParticle` -/

theorem getDiffuseParticle_of_getElem? {Vec3 Float32 : Type}
    (a : DiffuseParticleAttributes Vec3 Float32) (i : Nat)
    (p v : Vec3) (l : Float32) (t c : Char8)
    (hp : a.positions[i]? = some p) (hv : a.velocities[i]? = some v)
    (hl : a.lifetimes[i]? = some l) (ht : a.types[i]? = some t) (hc : a.ids[i]? = some c) :
    getDiffuseParticle a i
      = (Except.ok { position := p, velocity := v, lifetime := l,
                     type := DiffuseParticleType.mk t, id := c }, a) := by
  unfold getDiffuseParticle
  simp only [vectorAt_of_getElem? _ _ _ hp, vectorAt_of_getElem? _ _ _ hv,
    vectorAt_of_getElem? _ _ _ hl, vectorAt_of_getElem? _ _ _ ht,
    vectorAt_of_getElem? _ _ _ hc]
  rfl

/-- C3: compaction keeps the attribute arrays index-aligned.  For five arrays
of length `n` and a mask of length `n`, after every array has been compacted
under the mask, each `k` below the new length has an index `j`, the index of
the `k`-th unflagged entry of the mask (its flag is false and exactly `k`
unflagged entries precede it), such that `getDiffuseParticle(k)` on the
compacted arrays returns the particle that `getDiffuseParticle(j)` returns on
the original arrays. -/
theorem compaction_keeps_alignment {Vec3 Float32 : Type}
    (a : DiffuseParticleAttributes Vec3 Float32) (isRemoved : List Bool) (n k : Nat)
    (hp : a.positions.length = n) (hv : a.velocities.length = n)
    (hl : a.lifetimes.length = n) (ht : a.types.length = n) (hc : a.ids.length = n)
    (hmask : isRemoved.length = n)
    (hk : k < (compactAttributes a isRemoved).positions.length) :
    ∃ j, kthUnflagged isRemoved k = some j
      ∧ j < n ∧ isRemoved[j]? = some false ∧ (isRemoved.take j).count false = k
      ∧ ∃ dp, (getDiffuseParticle (compactAttributes a isRemoved) k).1 = Except.ok dp
          ∧ (getDiffuseParticle a j).1 = Except.ok dp := by
  have hp2 : a.positions.length = isRemoved.length := by omega
  have hv2 : a.velocities.length = isRemoved.length := by omega
  have hl2 : a.lifetimes.length = isRemoved.length := by omega
  have ht2 : a.types.length = isRemoved.length := by omega
  have hc2 : a.ids.length = isRemoved.length := by omega
  have hca : compactAttributes a isRemoved
      = { positions := keepUnflagged a.positions isRemoved,
          velocities := keepUnflagged a.velocities isRemoved,
          lifetimes := keepUnflagged a.lifetimes isRemoved,
          types := keepUnflagged a.types isRemoved,
          ids := keepUnflagged a.ids isRemoved } := by
    simp only [compactAttributes, removeItems_eq _ _ hp2, removeItems_eq _ _ hv2,
      removeItems_eq _ _ hl2, removeItems_eq _ _ ht2, removeItems_eq _ _ hc2]
  rw [hca] at hk ⊢
  simp only at hk
  have lp := keepUnflagged_length_add a.positions isRemoved hp2
  have lv := keepUnflagged_length_add a.velocities isRemoved hv2
  have ll := keepUnflagged_length_add a.lifetimes isRemoved hl2
  have lt := keepUnflagged_length_add a.types isRemoved ht2
  have lc := keepUnflagged_length_add a.ids isRemoved hc2
  obtain ⟨j, hj, ep⟩ := keepUnflagged_getElem a.positions isRemoved k hp2 hk
  obtain ⟨j1, hj1, ev⟩ := keepUnflagged_getElem a.velocities isRemoved k hv2 (by omega)
  obtain ⟨j2, hj2, el⟩ := keepUnflagged_getElem a.lifetimes isRemoved k hl2 (by omega)
  obtain ⟨j3, hj3, et⟩ := keepUnflagged_getElem a.types isRemoved k ht2 (by omega)
  obtain ⟨j4, hj4, ec⟩ := keepUnflagged_getElem a.ids isRemoved k hc2 (by omega)
  obtain rfl : j1 = j := Option.some.inj (hj1.symm.trans hj)
  obtain rfl : j2 = j1 := Option.some.inj (hj2.symm.trans hj)
  obtain rfl : j3 = j2 := Option.some.inj (hj3.symm.trans hj)
  obtain rfl : j4 = j3 := Option.some.inj (hj4.symm.trans hj)
  obtain ⟨hjlt, hflag, hcount⟩ := kthUnflagged_spec isRemoved k j4 hj
  have bp : a.positions[j4]? = some (a.positions[j4]) := List.getElem?_eq_getElem (by omega)
  have bv : a.velocities[j4]? = some (a.velocities[j4]) := List.getElem?_eq_getElem (by omega)
  have bl : a.lifetimes[j4]? = some (a.lifetimes[j4]) := List.getElem?_eq_getElem (by omega)
  have bt : a.types[j4]? = some (a.types[j4]) := List.getElem?_eq_getElem (by omega)
  have bc : a.ids[j4]? = some (a.ids[j4]) := List.getElem?_eq_getElem (by omega)
  refine ⟨j4, hj, by omega, hflag, hcount,
    { position := a.positions[j4], velocity := a.velocities[j4], lifetime := a.lifetimes[j4],
      type := DiffuseParticleType.mk a.types[j4], id := a.ids[j4] }, ?_, ?_⟩
  · rw [getDiffuseParticle_of_getElem? _ k _ _ _ _ _ (ep.trans bp) (ev.trans bv)
      (el.trans bl) (et.trans bt) (ec.trans bc)]
  · rw [getDiffuseParticle_of_getElem? a j4 _ _ _ _ _ bp bv bl bt bc]

theorem compaction_keeps_alignment_witness :
    ∃ j, kthUnflagged [true, false, false] 1 = some j
      ∧ j < 3 ∧ [true, false, false][j]? = some false
      ∧ ([true, false, false].take j).count false = 1
      ∧ ∃ dp, (getDiffuseParticle (compactAttributes sampleAttributes
                [true, false, false]) 1).1 = Except.ok dp
          ∧ (getDiffuseParticle sampleAttributes j).1 = Except.ok dp :=
  compaction_keeps_alignment sampleAttributes [true, false, false] 3 1
    rfl rfl rfl rfl rfl rfl
    (by simp [compactAttributes, sampleAttributes, removeItems_eq, keepUnflagged])

/-- C5: for an index `i` below the length of each of the five attribute
arrays, `getDiffuseParticle(i)` returns the particle whose position, velocity,
lifetime, type and id are `positions[i]`, `velocities[i]`, `lifetimes[i]`,
`types[i]` converted to the particle-type enumeration, and `ids[i]`; the five
arrays are unchanged by the call. -/
theorem getDiffuseParticle_returns_entry {Vec3 Float32 : Type}
    (a : DiffuseParticleAttributes Vec3 Float32) (i : Nat)
    (hp : i < a.positions.length) (hv : i < a.velocities.length)
    (hl : i < a.lifetimes.length) (ht : i < a.types.length) (hc : i < a.ids.length) :
    getDiffuseParticle a i
      = (Except.ok { position := a.positions[i], velocity := a.velocities[i],
                     lifetime := a.lifetimes[i],
                     type := DiffuseParticleType.mk a.types[i], id := a.ids[i] }, a) :=
  getDiffuseParticle_of_getElem? a i _ _ _ _ _ (List.getElem?_eq_getElem hp)
    (List.getElem?_eq_getElem hv) (List.getElem?_eq_getElem hl)
    (List.getElem?_eq_getElem ht) (List.getElem?_eq_getElem hc)

theorem getDiffuseParticle_returns_entry_witness :
    getDiffuseParticle sampleAttributes 2
      = (Except.ok { position := 3, velocity := 6, lifetime := 9,
                     type := DiffuseParticleType.mk 2, id := 12 }, sampleAttributes) :=
  getDiffuseParticle_returns_entry sampleAttributes 2
    (by decide) (by decide) (by decide) (by decide) (by decide)

/-- C6 (as stated, refuted): there is no choice of the four enumerators foam,
bubble, spray, dust for which every particle returned by `getDiffuseParticle`
has one of these four types.  For instance, with four enumerators given, one of
the stored values `0, 1, 2, 3, 4` is none of their codes, and
`getDiffuseParticle(0)` on a store whose `types` array holds that value returns
a particle of that type. -/
theorem getDiffuseParticle_type_not_always_enumerator :
    ¬ ∃ e : DiffuseParticleTypeEnumerators,
        ∀ (a : DiffuseParticleAttributes Unit Unit) (i : Nat) (dp : DiffuseParticle Unit Unit),
          (getDiffuseParticle a i).1 = Except.ok dp →
            dp.type = e.foam ∨ dp.type = e.bubble ∨ dp.type = e.spray ∨ dp.type = e.dust := by
  rintro ⟨e, h⟩
  have hc : ∀ c : Char8, c = e.foam.code ∨ c = e.bubble.code ∨ c = e.spray.code
      ∨ c = e.dust.code := by
    intro c
    have hget : (getDiffuseParticle
        ({ positions := [()], velocities := [()], lifetimes := [()], types := [c],
           ids := [0] } : DiffuseParticleAttributes Unit Unit) 0).1
        = Except.ok { position := (), velocity := (), lifetime := (),
                      type := DiffuseParticleType.mk c, id := 0 } := by
      rw [getDiffuseParticle_of_getElem?
        ({ positions := [()], velocities := [()], lifetimes := [()], types := [c],
           ids := [0] } : DiffuseParticleAttributes Unit Unit) 0 () () () c 0
        rfl rfl rfl rfl rfl]
    rcases h _ 0 _ hget with h1 | h1 | h1 | h1
    · exact Or.inl (congrArg DiffuseParticleType.code h1)
    · exact Or.inr (Or.inl (congrArg DiffuseParticleType.code h1))
    · exact Or.inr (Or.inr (Or.inl (congrArg DiffuseParticleType.code h1)))
    · exact Or.inr (Or.inr (Or.inr (congrArg DiffuseParticleType.code h1)))
  have hsub : (Finset.univ : Finset Char8)
      ⊆ {e.foam.code, e.bubble.code, e.spray.code, e.dust.code} := by
    intro c _
    simp only [Finset.mem_insert, Finset.mem_singleton]
    exact hc c
  have h1 := Finset.card_le_card hsub
  have h2 : ({e.foam.code, e.bubble.code, e.spray.code, e.dust.code} : Finset Char8).card ≤ 4 :=
    Finset.card_le_four
  have h3 : (Finset.univ : Finset Char8).card = 256 := by
    rw [Finset.card_univ, Fintype.card_fin]
  omega

/-- C6 (amended): the type of the particle returned by `getDiffuseParticle` is
the value stored in `types[index]`, unchanged; so it is one of foam, bubble,
spray, dust exactly when the stored value is the code of one of these four
enumerators. -/
theorem getDiffuseParticle_type_is_stored_value {Vec3 Float32 : Type}
    (e : DiffuseParticleTypeEnumerators) (a : DiffuseParticleAttributes Vec3 Float32)
    (i : Nat) (dp : DiffuseParticle Vec3 Float32)
    (h : (getDiffuseParticle a i).1 = Except.ok dp) :
    a.types[i]? = some dp.type.code
      ∧ ((dp.type = e.foam ∨ dp.type = e.bubble ∨ dp.type = e.spray ∨ dp.type = e.dust)
          ↔ (a.types[i]? = some e.foam.code ∨ a.types[i]? = some e.bubble.code
              ∨ a.types[i]? = some e.spray.code ∨ a.types[i]? = some e.dust.code)) := by
  have key : a.types[i]? = some dp.type.code := by
    unfold getDiffuseParticle vectorAt at h
    simp only at h
    cases hp : a.positions[i]? <;> cases hv : a.velocities[i]? <;>
      cases hl : a.lifetimes[i]? <;> cases ht : a.types[i]? <;>
      cases hc : a.ids[i]? <;> simp only [hp, hv, hl, ht, hc] at h <;>
      first
        | (cases h; rfl)
        | cases h
  refine ⟨key, ?_⟩
  have hiff : ∀ t : DiffuseParticleType, dp.type = t ↔ a.types[i]? = some t.code := by
    intro t
    rw [key]
    constructor
    · intro h1; rw [h1]
    · intro h1
      have h2 : dp.type.code = t.code := Option.some.inj h1
      cases hd : dp.type; cases t; simp_all
  rw [hiff, hiff, hiff, hiff]

theorem getDiffuseParticle_type_is_stored_value_witness :
    sampleAttributes.types[1]? = some (DiffuseParticleType.mk 1).code
      ∧ ((DiffuseParticleType.mk 1 = DiffuseParticleType.mk 1
            ∨ DiffuseParticleType.mk 1 = DiffuseParticleType.mk 0
            ∨ DiffuseParticleType.mk 1 = DiffuseParticleType.mk 2
            ∨ DiffuseParticleType.mk 1 = DiffuseParticleType.mk 3)
          ↔ (sampleAttributes.types[1]? = some (DiffuseParticleType.mk 1).code
              ∨ sampleAttributes.types[1]? = some (DiffuseParticleType.mk 0).code
              ∨ sampleAttributes.types[1]? = some (DiffuseParticleType.mk 2).code
              ∨ sampleAttributes.types[1]? = some (DiffuseParticleType.mk 3).code)) :=
  getDiffuseParticle_type_is_stored_value
    { foam := DiffuseParticleType.mk 1, bubble := DiffuseParticleType.mk 0,
      spray := DiffuseParticleType.mk 2, dust := DiffuseParticleType.mk 3 }
    sampleAttributes 1
    { position := 2, velocity := 5, lifetime := 8, type := DiffuseParticleType.mk 1, id := 11 }
    rfl

/-! ## `ForceFieldVolume_new` -/

/-- C7: `ForceFieldVolume_new(err)` always overwrites `*err` (the value left in
it does not depend on the value found there).  When the construction succeeds
the object is returned and `*err` is `SUCCESS`, with the recorded message
untouched; when the construction raises an exception the null pointer is
returned, `*err` is `FAIL` and the exception has been passed to
`CBindings::set_error_message`.  With `SUCCESS` and `FAIL` distinct codes,
`*err` is `FAIL` exactly when the returned pointer is null. -/
theorem ForceFieldVolume_new_error_code {Obj Exn Msg : Type} (SUCCESS FAIL : Int)
    (hcodes : SUCCESS ≠ FAIL) (set_error_message : Exn → Msg → Msg) (st : BindingState Msg) :
    (∀ obj : Obj,
        ForceFieldVolume_new SUCCESS FAIL set_error_message (Construction.constructed obj) st
          = (some obj, { err := SUCCESS, bindings := st.bindings }))
      ∧ (∀ ex : Exn,
        ForceFieldVolume_new SUCCESS FAIL set_error_message
            (Construction.raised ex : Construction Obj Exn) st
          = (none, { err := FAIL, bindings := set_error_message ex st.bindings }))
      ∧ (∀ c : Construction Obj Exn,
        (ForceFieldVolume_new SUCCESS FAIL set_error_message c st).2.err = FAIL
          ↔ (ForceFieldVolume_new SUCCESS FAIL set_error_message c st).1 = none)
      ∧ (∀ (c : Construction Obj Exn) (err0 : Int),
        (ForceFieldVolume_new SUCCESS FAIL set_error_message c { st with err := err0 }).2.err
          = (ForceFieldVolume_new SUCCESS FAIL set_error_message c st).2.err) := by
  refine ⟨fun obj => rfl, fun ex => rfl, fun c => ?_, fun c err0 => ?_⟩
  · cases c with
    | constructed obj =>
      simp only [ForceFieldVolume_new]
      constructor
      · intro h; exact absurd h hcodes
      · intro h; cases h
    | raised ex => simp [ForceFieldVolume_new]
  · cases c <;> rfl

theorem ForceFieldVolume_new_error_code_witness :
    (∀ obj : Nat,
        ForceFieldVolume_new 1 0 (fun (ex : String) (_ : String) => ex)
            (Construction.constructed obj) { err := 7, bindings := "" }
          = (some obj, { err := 1, bindings := "" }))
      ∧ (∀ ex : String,
        ForceFieldVolume_new 1 0 (fun (ex : String) (_ : String) => ex)
            (Construction.raised ex : Construction Nat String) { err := 7, bindings := "" }
          = (none, { err := 0, bindings := ex }))
      ∧ (∀ c : Construction Nat String,
        (ForceFieldVolume_new 1 0 (fun (ex : String) (_ : String) => ex) c
            { err := 7, bindings := "" }).2.err = 0
          ↔ (ForceFieldVolume_new 1 0 (fun (ex : String) (_ : String) => ex) c
            { err := 7, bindings := "" }).1 = none)
      ∧ (∀ (c : Construction Nat String) (err0 : Int),
        (ForceFieldVolume_new 1 0 (fun (ex : String) (_ : String) => ex) c
            { err := err0, bindings := "" }).2.err
          = (ForceFieldVolume_new 1 0 (fun (ex : String) (_ : String) => ex) c
            { err := 7, bindings := "" }).2.err) :=
  ForceFieldVolume_new_error_code 1 0 (by decide) (fun (ex : String) (_ : String) => ex)
    { err := 7, bindings := "" }

/-! ## Default configuration -/

/-- C10: in a freshly constructed simulation each of the four diffuse types
(foam, bubble, spray, dust) has the limit behaviour `collide`, an active-sides
list of exactly six entries, all true, and a boundary-collisions list of
exactly six entries, all true; the policies collide, ballistic and kill are
the pairwise distinct values 0, 1 and 2. -/
theorem fresh_limit_behaviour_and_boundary_flags :
    (DiffuseParticleSimulation.fresh._foamLimitBehaviour = LimitBehaviour.collide
      ∧ DiffuseParticleSimulation.fresh._bubbleLimitBehaviour = LimitBehaviour.collide
      ∧ DiffuseParticleSimulation.fresh._sprayLimitBehaviour = LimitBehaviour.collide
      ∧ DiffuseParticleSimulation.fresh._dustLimitBehaviour = LimitBehaviour.collide)
    ∧ (∀ sides ∈ [DiffuseParticleSimulation.fresh._foamActiveSides,
                  DiffuseParticleSimulation.fresh._bubbleActiveSides,
                  DiffuseParticleSimulation.fresh._sprayActiveSides,
                  DiffuseParticleSimulation.fresh._dustActiveSides],
        sides.length = 6 ∧ ∀ flag ∈ sides, flag = true)
    ∧ (∀ sides ∈ [DiffuseParticleSimulation.fresh._foamBoundaryCollisions,
                  DiffuseParticleSimulation.fresh._bubbleBoundaryCollisions,
                  DiffuseParticleSimulation.fresh._sprayBoundaryCollisions,
                  DiffuseParticleSimulation.fresh._dustBoundaryCollisions],
        sides.length = 6 ∧ ∀ flag ∈ sides, flag = true)
    ∧ (LimitBehaviour.collide.code = 0 ∧ LimitBehaviour.ballistic.code = 1
        ∧ LimitBehaviour.kill.code = 2)
    ∧ (LimitBehaviour.collide ≠ LimitBehaviour.ballistic
        ∧ LimitBehaviour.collide ≠ LimitBehaviour.kill
        ∧ LimitBehaviour.ballistic ≠ LimitBehaviour.kill) := by
  refine ⟨⟨rfl, rfl, rfl, rfl⟩, ?_, ?_, ⟨rfl, rfl, rfl⟩, ?_⟩
  · decide
  · decide
  · decide

/-! ## The particle id counter -/

theorem toUnsignedChar_val (x : Int) (h0 : 0 ≤ x) (h1 : x < 256) :
    ((toUnsignedChar x).val : Int) = x := by
  simp only [toUnsignedChar]
  omega

theorem successiveIDs_vals (limit : Int) (h0 : 0 < limit) (h1 : limit ≤ 256) :
    ∀ (n : Nat) (s : DiffuseParticleSimulation),
      s._diffuseParticleIDLimit = limit →
      0 ≤ s._currentDiffuseParticleID → s._currentDiffuseParticleID < limit →
      (successiveIDs n s).map (fun c => (c.val : Int))
        = (List.range n).map (fun k : Nat => (s._currentDiffuseParticleID + (k : Int)) % limit) := by
  intro n
  induction n with
  | zero => intro s _ _ _; simp [successiveIDs]
  | succ n ih =>
    intro s hl hc0 hc1
    have hnext0 : 0 ≤ (s._currentDiffuseParticleID + 1) % limit :=
      Int.emod_nonneg _ (by omega)
    have hnext1 : (s._currentDiffuseParticleID + 1) % limit < limit :=
      Int.emod_lt_of_pos _ h0
    have ih1 := ih (_getDiffuseParticleID s).2 (by simpa [_getDiffuseParticleID] using hl)
      (by simpa [_getDiffuseParticleID, hl] using hnext0)
      (by simpa [_getDiffuseParticleID, hl] using hnext1)
    rw [successiveIDs, List.map_cons, ih1, List.range_succ_eq_map, List.map_cons, List.map_map]
    congr 1
    · simp only [_getDiffuseParticleID]
      rw [toUnsignedChar_val _ hc0 (by omega)]
      simp only [Nat.cast_zero, add_zero]
      exact (Int.emod_eq_of_lt hc0 hc1).symm
    · apply List.map_congr_left
      intro k _
      simp only [_getDiffuseParticleID, hl, Function.comp, Nat.succ_eq_add_one, Nat.cast_add,
        Nat.cast_one]
      rw [Int.emod_add_emod]
      congr 1
      ring

/-- C8: the particle id is a single 8-bit counter of the simulation that wraps
modulo `_diffuseParticleIDLimit`.  In a freshly constructed simulation the
counter is 0 and the limit is 256.  Starting from counter 0 with a limit
between 1 and 256, the values returned by `n` successive calls of
`_getDiffuseParticleID` are `0, 1, ..., limit-1, 0, ...` (the `k`-th is
`k mod limit`); with the default limit these are `k mod 256`.  Every counter
value below 256 converts to the `unsigned char` id without truncation, and the
conversion is injective there. -/
theorem diffuseParticleID_wraps (limit : Int) (n : Nat) (h0 : 0 < limit) (h1 : limit ≤ 256) :
    DiffuseParticleSimulation.fresh._currentDiffuseParticleID = 0
      ∧ DiffuseParticleSimulation.fresh._diffuseParticleIDLimit = 256
      ∧ (successiveIDs n
            { DiffuseParticleSimulation.fresh with _diffuseParticleIDLimit := limit }).map
            (fun c => (c.val : Int))
          = (List.range n).map (fun k : Nat => (k : Int) % limit)
      ∧ (successiveIDs n DiffuseParticleSimulation.fresh).map (fun c => (c.val : Int))
          = (List.range n).map (fun k : Nat => (k : Int) % 256)
      ∧ (∀ x : Int, 0 ≤ x → x < 256 → ((toUnsignedChar x).val : Int) = x)
      ∧ (∀ x y : Int, 0 ≤ x → x < 256 → 0 ≤ y → y < 256 →
          toUnsignedChar x = toUnsignedChar y → x = y) := by
  refine ⟨rfl, rfl, ?_, ?_, toUnsignedChar_val, ?_⟩
  · have h := successiveIDs_vals limit h0 h1 n
      { DiffuseParticleSimulation.fresh with _diffuseParticleIDLimit := limit } rfl
      (le_refl (0 : Int)) h0
    simpa [DiffuseParticleSimulation.fresh] using h
  · have h := successiveIDs_vals 256 (by decide) (by decide) n
      DiffuseParticleSimulation.fresh rfl (le_refl (0 : Int))
      (show (0 : Int) < 256 by decide)
    simpa [DiffuseParticleSimulation.fresh] using h
  · intro x y hx0 hx1 hy0 hy1 hxy
    have hx := toUnsignedChar_val x hx0 hx1
    have hy := toUnsignedChar_val y hy0 hy1
    rw [hxy] at hx
    omega

theorem diffuseParticleID_wraps_witness :
    DiffuseParticleSimulation.fresh._currentDiffuseParticleID = 0
      ∧ DiffuseParticleSimulation.fresh._diffuseParticleIDLimit = 256
      ∧ (successiveIDs 7
            { DiffuseParticleSimulation.fresh with _diffuseParticleIDLimit := 3 }).map
            (fun c => (c.val : Int))
          = (List.range 7).map (fun k : Nat => (k : Int) % 3)
      ∧ (successiveIDs 7 DiffuseParticleSimulation.fresh).map (fun c => (c.val : Int))
          = (List.range 7).map (fun k : Nat => (k : Int) % 256)
      ∧ (∀ x : Int, 0 ≤ x → x < 256 → ((toUnsignedChar x).val : Int) = x)
      ∧ (∀ x y : Int, 0 ≤ x → x < 256 → 0 ≤ y → y < 256 →
          toUnsignedChar x = toUnsignedChar y → x = y) :=
  diffuseParticleID_wraps 3 7 (by decide) (by decide)

/-! ## One simulation step -/

theorem removalMask_length {P : Type} (maxNum : Nat) (expired killed : P → Bool) :
    ∀ (ps : List P) (i : Nat), (removalMask maxNum expired killed i ps).length = ps.length := by
  intro ps
  induction ps with
  | nil => intro i; rfl
  | cons p ps ih => intro i; simp [removalMask, ih (i + 1)]

theorem keepUnflagged_removalMask_length_le {P : Type} (maxNum : Nat)
    (expired killed : P → Bool) :
    ∀ (ps : List P) (i : Nat),
      (keepUnflagged ps (removalMask maxNum expired killed i ps)).length ≤ maxNum - i := by
  intro ps
  induction ps with
  | nil => intro i; simp [removalMask, keepUnflagged]
  | cons p ps ih =>
    intro i
    have h := ih (i + 1)
    rw [removalMask]
    cases hflag : (expired p || killed p || decide (maxNum ≤ i)) with
    | true => simp only [keepUnflagged]; omega
    | false =>
      have hi : ¬ maxNum ≤ i := by
        intro hle
        simp [hle] at hflag
      simp only [keepUnflagged, List.length_cons]
      omega

/-- C9: for every simulation state and every call of `update`, the number of
diffuse particles held after the step is at most the configured maximum
(`getMaxNumDiffuseParticles`), which the step leaves as configured. -/
theorem update_respects_max_particles {P : Type} (inputs : StepInputs P)
    (st : SimulationState P) :
    (update inputs st).particles.length ≤ getMaxNumDiffuseParticles (update inputs st).config
      ∧ (update inputs st).config = st.config := by
  refine ⟨?_, rfl⟩
  simp only [update]
  rw [removeItems_eq _ _ (removalMask_length _ _ _ _ 0).symm]
  exact keepUnflagged_removalMask_length_le _ _ _ _ 0

/-! ## Safety of `_removeItemsFromVector` -/

/-- Invariant of the first loop, on its trace: entered at read index `i` and
write index `currentidx ≤ i`, the loop body is entered once for every read
index from `i` to the end, each time with a write index that is at most the
read index, and with the read index inside both vectors. -/
theorem compactLoopTrace_spec {T : Type} (isRemoved : List Bool) :
    ∀ (n i : Nat) (items : List T) (currentidx : Nat),
      n = items.length - i → currentidx ≤ i → i ≤ items.length →
      items.length = isRemoved.length →
      (compactLoopTrace isRemoved i items currentidx).map Prod.fst = List.range' i n
        ∧ ∀ p ∈ compactLoopTrace isRemoved i items currentidx,
            p.2 ≤ p.1 ∧ p.1 < items.length ∧ p.1 < isRemoved.length := by
  intro n
  induction n with
  | zero =>
    intro i items cur hn _ hi hlen
    have hi2 : ¬ i < items.length := by omega
    rw [compactLoopTrace, dif_neg hi2]
    simp
  | succ n ih =>
    intro i items cur hn hcur hi hlen
    have hi2 : i < items.length := by omega
    have hi3 : i < isRemoved.length := by omega
    have hget : isRemoved[i]? = some isRemoved[i] := List.getElem?_eq_getElem hi3
    rw [compactLoopTrace, dif_pos hi2, hget]
    cases hb : isRemoved[i] with
    | true =>
      obtain ⟨h1, h2⟩ := ih (i + 1) items cur (by omega) (by omega) (by omega) hlen
      refine ⟨?_, ?_⟩
      · simp only [List.map_cons, h1, List.range'_succ]
      · intro p hp
        rcases List.mem_cons.mp hp with rfl | hp
        · exact ⟨hcur, hi2, hi3⟩
        · exact h2 p hp
    | false =>
      have hcl : cur < items.length := by omega
      obtain ⟨h1, h2⟩ := ih (i + 1) (items.set cur items[i]) (cur + 1)
        (by simp; omega) (by omega) (by simp; omega) (by simpa using hlen)
      refine ⟨?_, ?_⟩
      · simp only [if_pos hcl, List.map_cons, h1, List.range'_succ]
      · intro p hp
        simp only [if_pos hcl] at hp
        rcases List.mem_cons.mp hp with rfl | hp
        · exact ⟨hcur, hi2, hi3⟩
        · have := h2 p hp
          simpa using this

/-- The second loop makes `numRemoved - i` calls of `pop_back` when that many
items are there. -/
theorem popBackCalls_spec {T : Type} (numRemoved : Int) :
    ∀ (k : Nat) (i : Int) (items : List T),
      (numRemoved - i).toNat = k → k ≤ items.length →
      popBackCalls numRemoved i items = k := by
  intro k
  induction k with
  | zero =>
    intro i items hk _
    have : ¬ i < numRemoved := by omega
    rw [popBackCalls.eq_def, if_neg this]
  | succ k ih =>
    intro i items hk hlen
    have hlt : i < numRemoved := by omega
    rw [popBackCalls.eq_def, if_pos hlt]
    match items, hlen with
    | x :: xs, hlen =>
      simp only
      rw [ih (i + 1) (x :: xs).dropLast (by omega) (by simp at hlen ⊢; omega)]

/-- C11: with `items.size() == isRemoved.size()`, every access made by
`_removeItemsFromVector` is in bounds and no retained item is lost.  The call
completes without undefined behaviour; the first loop enters its body once per
read index `i = 0, ..., size-1`, each time with `currentidx ≤ i` and `i` inside
both vectors; `numRemoved` is not negative and equals the number of true
flags, which is also the number of `pop_back` calls; `pop_back` never meets an
empty vector; and the items left are exactly the unflagged ones. -/
theorem removeItems_accesses_in_bounds {T : Type} (items : List T) (isRemoved : List Bool)
    (hlen : items.length = isRemoved.length) :
    (_removeItemsFromVector items isRemoved).outcome = Outcome.completed
      ∧ (compactLoopTrace isRemoved 0 items 0).map Prod.fst = List.range items.length
      ∧ (∀ p ∈ compactLoopTrace isRemoved 0 items 0,
          p.2 ≤ p.1 ∧ p.1 < items.length ∧ p.1 < isRemoved.length)
      ∧ (∃ (items1 : List T) (currentidx : Nat),
          compactLoop isRemoved 0 items 0 = some (items1, currentidx)
            ∧ (0 : Int) ≤ (items1.length : Int) - (currentidx : Int)
            ∧ (items1.length : Int) - (currentidx : Int) = ((isRemoved.count true : Nat) : Int)
            ∧ popBackCalls ((items1.length : Int) - (currentidx : Int)) 0 items1
                = isRemoved.count true
            ∧ ∃ items2, popLoop ((items1.length : Int) - (currentidx : Int)) 0 items1
                = some items2)
      ∧ (_removeItemsFromVector items isRemoved).items
          = ((items.zip isRemoved).filter (fun p => !p.2)).map Prod.fst := by
  obtain ⟨t1, t2⟩ :=
    compactLoopTrace_spec isRemoved items.length 0 items 0 (by simp) (by simp) (by simp) hlen
  obtain ⟨items1, h1, h2, _⟩ :=
    compactLoop_spec isRemoved items.length 0 items 0 (by simp) (by simp) (by simp) hlen
  simp only [List.drop_zero, Nat.zero_add] at h1
  have hadd := keepUnflagged_length_add items isRemoved hlen
  have hnum : (items1.length : Int) - ((keepUnflagged items isRemoved).length : Int)
      = ((isRemoved.count true : Nat) : Int) := by
    rw [h2]; omega
  refine ⟨by rw [removeItems_eq items isRemoved hlen], ?_, t2, ?_, ?_⟩
  · rw [t1, List.range_eq_range']
  · refine ⟨items1, (keepUnflagged items isRemoved).length, h1, by omega, hnum, ?_, ?_⟩
    · rw [hnum]
      exact popBackCalls_spec _ (isRemoved.count true) 0 items1 (by omega) (by omega)
    · rw [hnum]
      exact ⟨_, popLoop_spec _ (isRemoved.count true) 0 items1 (by omega) (by omega)⟩
  · rw [removeItems_eq items isRemoved hlen]
    exact keepUnflagged_eq_filter items isRemoved

theorem removeItems_accesses_in_bounds_witness :
    (_removeItemsFromVector [10, 20, 30] [true, false, true]).outcome = Outcome.completed
      ∧ (compactLoopTrace [true, false, true] 0 [10, 20, 30] 0).map Prod.fst
          = List.range [10, 20, 30].length
      ∧ (∀ p ∈ compactLoopTrace [true, false, true] 0 [10, 20, 30] 0,
          p.2 ≤ p.1 ∧ p.1 < [10, 20, 30].length ∧ p.1 < [true, false, true].length)
      ∧ (∃ (items1 : List Nat) (currentidx : Nat),
          compactLoop [true, false, true] 0 [10, 20, 30] 0 = some (items1, currentidx)
            ∧ (0 : Int) ≤ (items1.length : Int) - (currentidx : Int)
            ∧ (items1.length : Int) - (currentidx : Int)
                = (([true, false, true].count true : Nat) : Int)
            ∧ popBackCalls ((items1.length : Int) - (currentidx : Int)) 0 items1
                = [true, false, true].count true
            ∧ ∃ items2, popLoop ((items1.length : Int) - (currentidx : Int)) 0 items1
                = some items2)
      ∧ (_removeItemsFromVector [10, 20, 30] [true, false, true]).items
          = (([10, 20, 30].zip [true, false, true]).filter (fun p => !p.2)).map Prod.fst :=
  removeItems_accesses_in_bounds [10, 20, 30] [true, false, true] rfl

/-! ## Range check of `getDiffuseParticle` -/

theorem getDiffuseParticle_in_range_or_error {Vec3 Float32 : Type}
    (a : DiffuseParticleAttributes Vec3 Float32) (i : Nat) :
    (i < a.positions.length ∧ i < a.velocities.length ∧ i < a.lifetimes.length
        ∧ i < a.types.length ∧ i < a.ids.length)
      ∨ (getDiffuseParticle a i).1 = Except.error StdException.out_of_range := by
  by_cases hp : i < a.positions.length
  swap
  · right
    simp only [getDiffuseParticle, vectorAt, List.getElem?_eq_none (not_lt.mp hp)]
    rfl
  by_cases hv : i < a.velocities.length
  swap
  · right
    simp only [getDiffuseParticle, vectorAt, List.getElem?_eq_getElem hp,
      List.getElem?_eq_none (not_lt.mp hv)]
    rfl
  by_cases hl : i < a.lifetimes.length
  swap
  · right
    simp only [getDiffuseParticle, vectorAt, List.getElem?_eq_getElem hp,
      List.getElem?_eq_getElem hv, List.getElem?_eq_none (not_lt.mp hl)]
    rfl
  by_cases ht : i < a.types.length
  swap
  · right
    simp only [getDiffuseParticle, vectorAt, List.getElem?_eq_getElem hp,
      List.getElem?_eq_getElem hv, List.getElem?_eq_getElem hl,
      List.getElem?_eq_none (not_lt.mp ht)]
    rfl
  by_cases hc : i < a.ids.length
  swap
  · right
    simp only [getDiffuseParticle, vectorAt, List.getElem?_eq_getElem hp,
      List.getElem?_eq_getElem hv, List.getElem?_eq_getElem hl, List.getElem?_eq_getElem ht,
      List.getElem?_eq_none (not_lt.mp hc)]
    rfl
  exact Or.inl ⟨hp, hv, hl, ht, hc⟩

/-- C12: `getDiffuseParticle(i)` returns a particle if and only if `i` is
smaller than the length of every one of the five attribute arrays; if `i` is
greater than or equal to the length of any of them, the call fails with the
out-of-range error and returns no record.  The store is unchanged either
way. -/
theorem getDiffuseParticle_returns_iff_in_range {Vec3 Float32 : Type}
    (a : DiffuseParticleAttributes Vec3 Float32) (i : Nat) :
    ((∃ dp, (getDiffuseParticle a i).1 = Except.ok dp)
        ↔ (i < a.positions.length ∧ i < a.velocities.length ∧ i < a.lifetimes.length
            ∧ i < a.types.length ∧ i < a.ids.length))
      ∧ ((a.positions.length ≤ i ∨ a.velocities.length ≤ i ∨ a.lifetimes.length ≤ i
            ∨ a.types.length ≤ i ∨ a.ids.length ≤ i)
          → (getDiffuseParticle a i).1 = Except.error StdException.out_of_range)
      ∧ (getDiffuseParticle a i).2 = a := by
  refine ⟨⟨?_, ?_⟩, ?_, rfl⟩
  · rintro ⟨dp, hdp⟩
    rcases getDiffuseParticle_in_range_or_error a i with h | h
    · exact h
    · rw [h] at hdp; cases hdp
  · rintro ⟨hp, hv, hl, ht, hc⟩
    exact ⟨_, congrArg Prod.fst (getDiffuseParticle_of_getElem? a i _ _ _ _ _
      (List.getElem?_eq_getElem hp) (List.getElem?_eq_getElem hv)
      (List.getElem?_eq_getElem hl) (List.getElem?_eq_getElem ht)
      (List.getElem?_eq_getElem hc))⟩
  · intro hout
    rcases getDiffuseParticle_in_range_or_error a i with h | h
    · omega
    · exact h

theorem getDiffuseParticle_returns_iff_in_range_witness :
    (getDiffuseParticle
        ({ positions := [1, 2, 3], velocities := [4, 5, 6], lifetimes := [7, 8],
           types := [0, 1, 2], ids := [10, 11, 12] } : DiffuseParticleAttributes Nat Nat) 2).1
      = Except.error StdException.out_of_range :=
  (getDiffuseParticle_returns_iff_in_range
    ({ positions := [1, 2, 3], velocities := [4, 5, 6], lifetimes := [7, 8],
       types := [0, 1, 2], ids := [10, 11, 12] } : DiffuseParticleAttributes Nat Nat) 2).2.1
    (Or.inr (Or.inr (Or.inl (by decide))))

/-! ## `_randomDouble` in double arithmetic -/

theorem roundHalfEven_floor_le (q : ℚ) : ⌊q⌋ ≤ roundHalfEven q := by
  unfold roundHalfEven
  split_ifs <;> omega

theorem roundHalfEven_le_floor_succ (q : ℚ) : roundHalfEven q ≤ ⌊q⌋ + 1 := by
  unfold roundHalfEven
  split_ifs <;> omega

theorem roundHalfEven_mono {a b : ℚ} (h : a ≤ b) : roundHalfEven a ≤ roundHalfEven b := by
  have hf : ⌊a⌋ ≤ ⌊b⌋ := Int.floor_mono h
  rcases lt_or_eq_of_le hf with hlt | heq
  · have h1 := roundHalfEven_le_floor_succ a
    have h2 := roundHalfEven_floor_le b
    omega
  · unfold roundHalfEven
    rw [heq]
    have hab : a - (⌊b⌋ : ℚ) ≤ b - (⌊b⌋ : ℚ) := by linarith
    split_ifs <;> first | omega | (exfalso; linarith)

theorem roundHalfEven_intCast (n : Int) : roundHalfEven (n : ℚ) = n := by
  unfold roundHalfEven
  rw [Int.floor_intCast]
  simp

theorem roundHalfEven_le_of_le {q : ℚ} {n : Int} (h : q ≤ n) : roundHalfEven q ≤ n := by
  have := roundHalfEven_mono h
  rwa [roundHalfEven_intCast] at this

theorem roundHalfEven_ge_of_ge {q : ℚ} {n : Int} (h : (n : ℚ) ≤ q) : n ≤ roundHalfEven q := by
  have := roundHalfEven_mono h
  rwa [roundHalfEven_intCast] at this

theorem doubleUlp_pos (a : ℚ) : 0 < doubleUlp a := by
  unfold doubleUlp
  positivity

theorem two_zpow_sub_mul (e : Int) : (2 : ℚ) ^ (e - 52) * 4503599627370496 = 2 ^ e := by
  rw [show (4503599627370496 : ℚ) = 2 ^ (52 : ℕ) by norm_num,
    ← zpow_natCast, ← zpow_add₀ (by norm_num : (2 : ℚ) ≠ 0)]
  congr 1
  omega

theorem two_zpow_sub_mul_succ (e : Int) :
    (2 : ℚ) ^ (e - 52) * 9007199254740992 = 2 ^ (e + 1) := by
  rw [show (9007199254740992 : ℚ) = 2 ^ (53 : ℕ) by norm_num,
    ← zpow_natCast, ← zpow_add₀ (by norm_num : (2 : ℚ) ≠ 0)]
  congr 1
  omega

theorem roundMagnitude_zero : roundMagnitude 0 = 0 := by
  unfold roundMagnitude
  rw [zero_div]
  have : roundHalfEven (0 : ℚ) = 0 := by
    have := roundHalfEven_intCast 0
    simpa using this
  rw [this]
  simp

theorem roundMagnitude_nonneg {a : ℚ} (h : 0 ≤ a) : 0 ≤ roundMagnitude a := by
  unfold roundMagnitude
  have hu := doubleUlp_pos a
  have h0 : ((0 : Int) : ℚ) ≤ a / doubleUlp a := by
    simpa using div_nonneg h hu.le
  have := roundHalfEven_ge_of_ge h0
  have h1 : (0 : ℚ) ≤ (roundHalfEven (a / doubleUlp a) : ℚ) := by exact_mod_cast this
  exact mul_nonneg h1 hu.le

theorem le_two_zpow_doubleExponent_succ (a : ℚ) : a < 2 ^ (doubleExponent a + 1) := by
  have h1 : a < ((2 : ℕ) : ℚ) ^ (Int.log 2 a + 1) := Int.lt_zpow_succ_log_self (by norm_num) a
  have h2 : ((2 : ℕ) : ℚ) ^ (Int.log 2 a + 1) ≤ ((2 : ℕ) : ℚ) ^ (doubleExponent a + 1) := by
    apply zpow_le_zpow_right₀ (by norm_num)
    unfold doubleExponent
    omega
  have := lt_of_lt_of_le h1 h2
  simpa using this

/-- A rounded magnitude stays within the binade of its argument. -/
theorem roundMagnitude_le_binade (a : ℚ) : roundMagnitude a ≤ 2 ^ (doubleExponent a + 1) := by
  unfold roundMagnitude
  have hu := doubleUlp_pos a
  have h1 := le_two_zpow_doubleExponent_succ a
  have h2 : a / doubleUlp a ≤ ((9007199254740992 : Int) : ℚ) := by
    rw [div_le_iff₀ hu]
    have := two_zpow_sub_mul_succ (doubleExponent a)
    unfold doubleUlp
    push_cast
    rw [mul_comm, this]
    exact h1.le
  have h3 := roundHalfEven_le_of_le h2
  have h4 : (roundHalfEven (a / doubleUlp a) : ℚ) ≤ (9007199254740992 : ℚ) := by exact_mod_cast h3
  calc (roundHalfEven (a / doubleUlp a) : ℚ) * doubleUlp a
      ≤ (9007199254740992 : ℚ) * doubleUlp a := mul_le_mul_of_nonneg_right h4 hu.le
    _ = 2 ^ (doubleExponent a + 1) := by
        unfold doubleUlp
        rw [mul_comm]
        exact two_zpow_sub_mul_succ _

theorem two_zpow_le_roundMagnitude {b : ℚ} (hb : 0 < b) (he : doubleExponent b = Int.log 2 b) :
    2 ^ (doubleExponent b) ≤ roundMagnitude b := by
  unfold roundMagnitude
  have hu := doubleUlp_pos b
  have h1 : ((2 : ℕ) : ℚ) ^ (Int.log 2 b) ≤ b := Int.zpow_log_le_self (by norm_num) hb
  rw [← he] at h1
  have h2 : ((4503599627370496 : Int) : ℚ) ≤ b / doubleUlp b := by
    rw [le_div_iff₀ hu]
    have := two_zpow_sub_mul (doubleExponent b)
    unfold doubleUlp
    push_cast
    rw [mul_comm, this]
    simpa using h1
  have h3 := roundHalfEven_ge_of_ge h2
  have h4 : (4503599627370496 : ℚ) ≤ (roundHalfEven (b / doubleUlp b) : ℚ) := by exact_mod_cast h3
  calc (2 : ℚ) ^ (doubleExponent b) = (4503599627370496 : ℚ) * doubleUlp b := by
        unfold doubleUlp
        rw [mul_comm]
        exact (two_zpow_sub_mul _).symm
    _ ≤ (roundHalfEven (b / doubleUlp b) : ℚ) * doubleUlp b :=
        mul_le_mul_of_nonneg_right h4 hu.le

theorem doubleExponent_mono {a b : ℚ} (ha : 0 < a) (h : a ≤ b) :
    doubleExponent a ≤ doubleExponent b := by
  unfold doubleExponent
  have := Int.log_mono_right (b := 2) ha h
  omega

theorem roundMagnitude_mono {a b : ℚ} (ha : 0 ≤ a) (h : a ≤ b) :
    roundMagnitude a ≤ roundMagnitude b := by
  rcases eq_or_lt_of_le ha with h0 | hpos
  · rw [← h0, roundMagnitude_zero]
    exact roundMagnitude_nonneg (le_trans ha h)
  have hb : 0 < b := lt_of_lt_of_le hpos h
  have he := doubleExponent_mono hpos h
  rcases eq_or_lt_of_le he with heq | hlt
  · unfold roundMagnitude doubleUlp
    rw [heq]
    have hu : (0 : ℚ) < 2 ^ (doubleExponent b - 52) := by positivity
    have h1 : a / 2 ^ (doubleExponent b - 52) ≤ b / 2 ^ (doubleExponent b - 52) :=
      div_le_div_of_nonneg_right h hu.le
    have h2 := roundHalfEven_mono h1
    have h3 : (roundHalfEven (a / 2 ^ (doubleExponent b - 52)) : ℚ)
        ≤ (roundHalfEven (b / 2 ^ (doubleExponent b - 52)) : ℚ) := by exact_mod_cast h2
    exact mul_le_mul_of_nonneg_right h3 hu.le
  · have hlog : doubleExponent b = Int.log 2 b := by
      unfold doubleExponent at hlt ⊢
      omega
    have h1 := roundMagnitude_le_binade a
    have h2 := two_zpow_le_roundMagnitude hb hlog
    have h3 : (2 : ℚ) ^ (doubleExponent a + 1) ≤ 2 ^ (doubleExponent b) :=
      zpow_le_zpow_right₀ (by norm_num) (by omega)
    linarith

/-- A normal double, `m * 2^(e-52)` with `2^52 ≤ m < 2^53` and `e ≥ -1022`, is
its own rounding. -/
theorem roundMagnitude_normal (m e : Int) (h1 : 4503599627370496 ≤ m) (h2 : m < 9007199254740992)
    (he : -1022 ≤ e) :
    roundMagnitude ((m : ℚ) * 2 ^ (e - 52)) = (m : ℚ) * 2 ^ (e - 52) := by
  have hu : (0 : ℚ) < 2 ^ (e - 52) := by positivity
  have hpos : (0 : ℚ) < (m : ℚ) * 2 ^ (e - 52) := by
    have : (0 : ℚ) < (m : ℚ) := by exact_mod_cast (by omega : (0 : Int) < m)
    positivity
  have hlo : ((2 : ℕ) : ℚ) ^ e ≤ (m : ℚ) * 2 ^ (e - 52) := by
    have hm : (4503599627370496 : ℚ) ≤ (m : ℚ) := by exact_mod_cast h1
    have := mul_le_mul_of_nonneg_right hm hu.le
    rw [mul_comm, two_zpow_sub_mul] at this
    simpa using this
  have hhi : (m : ℚ) * 2 ^ (e - 52) < ((2 : ℕ) : ℚ) ^ (e + 1) := by
    have hm : (m : ℚ) < (9007199254740992 : ℚ) := by exact_mod_cast h2
    have := mul_lt_mul_of_pos_right hm hu
    rw [mul_comm ((9007199254740992 : ℚ)), two_zpow_sub_mul_succ] at this
    simpa using this
  have hlog : Int.log 2 ((m : ℚ) * 2 ^ (e - 52)) = e := by
    have a1 := (Int.zpow_le_iff_le_log (b := 2) (by norm_num) hpos).mp hlo
    have a2 := (Int.lt_zpow_iff_log_lt (b := 2) (by norm_num) hpos).mp hhi
    omega
  have hexp : doubleExponent ((m : ℚ) * 2 ^ (e - 52)) = e := by
    unfold doubleExponent
    rw [hlog]
    omega
  unfold roundMagnitude doubleUlp
  rw [hexp, mul_div_assoc, div_self hu.ne', mul_one, roundHalfEven_intCast]

/-- The signed value that `roundToDouble` yields when it is finite. -/
theorem roundToDouble_eq_some {q a : ℚ} (h : roundToDouble q = some a) :
    roundMagnitude |q| < 2 ^ 1024
      ∧ a = if q < 0 then -roundMagnitude |q| else roundMagnitude |q| := by
  unfold roundToDouble at h
  split_ifs at h with h1 h2
  · exact ⟨h1, (Option.some.inj h).symm.trans (by rw [if_pos h2])⟩
  · exact ⟨h1, (Option.some.inj h).symm.trans (by rw [if_neg h2])⟩

theorem roundToDouble_zero : roundToDouble 0 = some 0 := by
  unfold roundToDouble
  rw [abs_zero, roundMagnitude_zero]
  norm_num

theorem roundToDouble_mono {x y a b : ℚ} (hxy : x ≤ y)
    (hx : roundToDouble x = some a) (hy : roundToDouble y = some b) : a ≤ b := by
  obtain ⟨_, rfl⟩ := roundToDouble_eq_some hx
  obtain ⟨_, rfl⟩ := roundToDouble_eq_some hy
  by_cases h1 : x < 0 <;> by_cases h2 : y < 0
  · rw [if_pos h1, if_pos h2, abs_of_neg h1, abs_of_neg h2]
    have := roundMagnitude_mono (a := -y) (b := -x) (by linarith) (by linarith)
    linarith
  · rw [if_pos h1, if_neg h2]
    have a1 := roundMagnitude_nonneg (abs_nonneg x)
    have a2 := roundMagnitude_nonneg (abs_nonneg y)
    linarith
  · exfalso; linarith
  · rw [if_neg h1, if_neg h2, abs_of_nonneg (not_lt.mp h1), abs_of_nonneg (not_lt.mp h2)]
    exact roundMagnitude_mono (not_lt.mp h1) hxy

/-- A value whose magnitude is at most a double `B` below `2^1024` rounds to a
finite double of magnitude at most `B`. -/
theorem roundToDouble_finite {x B : ℚ} (hx : |x| ≤ B) (hB : roundMagnitude B = B)
    (hB2 : B < 2 ^ 1024) : ∃ a, roundToDouble x = some a ∧ |a| ≤ B := by
  have h1 : roundMagnitude |x| ≤ B := by
    have := roundMagnitude_mono (abs_nonneg x) hx
    rwa [hB] at this
  have h0 := roundMagnitude_nonneg (abs_nonneg x)
  refine ⟨if x < 0 then -roundMagnitude |x| else roundMagnitude |x|, ?_, ?_⟩
  · unfold roundToDouble
    rw [if_pos (lt_of_le_of_lt h1 hB2)]
  · split_ifs
    · rw [abs_neg, abs_of_nonneg h0]; exact h1
    · rw [abs_of_nonneg h0]; exact h1

theorem roundToDouble_normal (m e : Int) (h1 : 4503599627370496 ≤ m)
    (h2 : m < 9007199254740992) (he : -1022 ≤ e) (he2 : e ≤ 1023) :
    roundToDouble ((m : ℚ) * 2 ^ (e - 52)) = some ((m : ℚ) * 2 ^ (e - 52)) := by
  have hu : (0 : ℚ) < 2 ^ (e - 52) := by positivity
  have hm : (0 : ℚ) < (m : ℚ) := by exact_mod_cast (by omega : (0 : Int) < m)
  have hpos : (0 : ℚ) < (m : ℚ) * 2 ^ (e - 52) := by positivity
  have hhi : (m : ℚ) * 2 ^ (e - 52) < 2 ^ (1024 : ℕ) := by
    have hm2 : (m : ℚ) < (9007199254740992 : ℚ) := by exact_mod_cast h2
    have a1 := mul_lt_mul_of_pos_right hm2 hu
    rw [mul_comm (9007199254740992 : ℚ), two_zpow_sub_mul_succ] at a1
    have a2 : (2 : ℚ) ^ (e + 1) ≤ 2 ^ ((1024 : ℕ) : Int) :=
      zpow_le_zpow_right₀ (by norm_num) (by omega)
    rw [zpow_natCast] at a2
    linarith
  unfold roundToDouble
  rw [abs_of_pos hpos, roundMagnitude_normal m e h1 h2 he, if_pos hhi, if_neg (not_lt.mpr hpos.le)]

/-- A subnormal double, `k * 2^(-1074)` with `0 ≤ k < 2^52`, is its own
rounding. -/
theorem roundMagnitude_subnormal (k : Int) (h1 : 0 ≤ k) (h2 : k < 4503599627370496) :
    roundMagnitude ((k : ℚ) * 2 ^ ((-1022 : Int) - 52)) = (k : ℚ) * 2 ^ ((-1022 : Int) - 52) := by
  have hu : (0 : ℚ) < 2 ^ ((-1022 : Int) - 52) := by positivity
  rcases eq_or_lt_of_le h1 with h0 | hpos
  · rw [← h0]; simp [roundMagnitude_zero]
  have hk : (0 : ℚ) < (k : ℚ) := by exact_mod_cast hpos
  have hc : (0 : ℚ) < (k : ℚ) * 2 ^ ((-1022 : Int) - 52) := by positivity
  have hhi : (k : ℚ) * 2 ^ ((-1022 : Int) - 52) < ((2 : ℕ) : ℚ) ^ (-1022 : Int) := by
    have hm : (k : ℚ) < (4503599627370496 : ℚ) := by exact_mod_cast h2
    have := mul_lt_mul_of_pos_right hm hu
    rw [mul_comm (4503599627370496 : ℚ), two_zpow_sub_mul] at this
    simpa using this
  have hlog := (Int.lt_zpow_iff_log_lt (b := 2) (by norm_num) hc).mp hhi
  have hexp : doubleExponent ((k : ℚ) * 2 ^ ((-1022 : Int) - 52)) = -1022 := by
    unfold doubleExponent
    omega
  unfold roundMagnitude doubleUlp
  rw [hexp, mul_div_assoc, div_self hu.ne', mul_one, roundHalfEven_intCast]

/-- Rounding is idempotent on magnitudes: a rounded magnitude is a double. -/
theorem roundMagnitude_idem {b : ℚ} (hb : 0 ≤ b) :
    roundMagnitude (roundMagnitude b) = roundMagnitude b := by
  rcases eq_or_lt_of_le hb with h0 | hbpos
  · rw [← h0, roundMagnitude_zero, roundMagnitude_zero]
  have hu := doubleUlp_pos b
  have he : -1022 ≤ doubleExponent b := by unfold doubleExponent; omega
  have hk0 : 0 ≤ roundHalfEven (b / doubleUlp b) :=
    roundHalfEven_ge_of_ge (n := 0) (by simpa using div_nonneg hb hu.le)
  have hk1 : roundHalfEven (b / doubleUlp b) ≤ 9007199254740992 := by
    apply roundHalfEven_le_of_le
    rw [div_le_iff₀ hu]
    have := two_zpow_sub_mul_succ (doubleExponent b)
    unfold doubleUlp
    push_cast
    rw [mul_comm, this]
    exact (le_two_zpow_doubleExponent_succ b).le
  have hval : roundMagnitude b
      = (roundHalfEven (b / doubleUlp b) : ℚ) * 2 ^ (doubleExponent b - 52) := rfl
  by_cases hlow : roundHalfEven (b / doubleUlp b) < 4503599627370496
  · -- below the normal range: the exponent is the smallest one
    have hexp : doubleExponent b = -1022 := by
      by_contra hne
      have hlog : doubleExponent b = Int.log 2 b := by
        unfold doubleExponent at hne ⊢
        omega
      have h1 : ((2 : ℕ) : ℚ) ^ (Int.log 2 b) ≤ b := Int.zpow_log_le_self (by norm_num) hbpos
      rw [← hlog] at h1
      have h2 : ((4503599627370496 : Int) : ℚ) ≤ b / doubleUlp b := by
        rw [le_div_iff₀ hu]
        have := two_zpow_sub_mul (doubleExponent b)
        unfold doubleUlp
        push_cast
        rw [mul_comm, this]
        simpa using h1
      have := roundHalfEven_ge_of_ge h2
      omega
    rw [hval, hexp]
    exact roundMagnitude_subnormal _ hk0 hlow
  · rcases eq_or_lt_of_le hk1 with htop | hlt
    · -- the rounding reached the next binade
      have h53 : roundMagnitude b
          = ((4503599627370496 : Int) : ℚ) * 2 ^ (doubleExponent b + 1 - 52) := by
        rw [hval, htop]
        have a1 := two_zpow_sub_mul_succ (doubleExponent b)
        have a2 := two_zpow_sub_mul (doubleExponent b + 1)
        push_cast
        rw [mul_comm, a1, mul_comm, a2]
      rw [h53]
      exact roundMagnitude_normal _ _ (by norm_num) (by norm_num) (by omega)
    · rw [hval]
      exact roundMagnitude_normal _ _ (by omega) hlt he

theorem roundToDouble_idem {q a : ℚ} (h : roundToDouble q = some a) :
    roundToDouble a = some a := by
  obtain ⟨hfin, rfl⟩ := roundToDouble_eq_some h
  have h0 := roundMagnitude_nonneg (abs_nonneg q)
  have hid := roundMagnitude_idem (abs_nonneg q)
  by_cases hq : q < 0
  · rw [if_pos hq]
    rcases eq_or_lt_of_le h0 with hz | hpos
    · rw [← hz, neg_zero]; exact roundToDouble_zero
    · unfold roundToDouble
      rw [abs_neg, abs_of_pos hpos, hid, if_pos hfin, if_pos (by linarith)]
  · rw [if_neg hq]
    unfold roundToDouble
    rw [abs_of_nonneg h0, hid, if_pos hfin, if_neg (not_lt.mpr h0)]

/-- A value between two values that round to finite doubles rounds to a finite
double between them. -/
theorem roundToDouble_between {x z y a b : ℚ} (hxz : x ≤ z) (hzy : z ≤ y)
    (hx : roundToDouble x = some a) (hy : roundToDouble y = some b) :
    ∃ c, roundToDouble z = some c ∧ a ≤ c ∧ c ≤ b := by
  obtain ⟨fx, _⟩ := roundToDouble_eq_some hx
  obtain ⟨fy, _⟩ := roundToDouble_eq_some hy
  have hz : roundMagnitude |z| < 2 ^ 1024 := by
    rcases le_max_iff.mp (abs_le_max_abs_abs hxz hzy) with h | h
    · exact lt_of_le_of_lt (roundMagnitude_mono (abs_nonneg z) h) fx
    · exact lt_of_le_of_lt (roundMagnitude_mono (abs_nonneg z) h) fy
  have hc : roundToDouble z
      = some (if z < 0 then -roundMagnitude |z| else roundMagnitude |z|) := by
    unfold roundToDouble
    rw [if_pos hz]
  exact ⟨_, hc, roundToDouble_mono hxz hx hc, roundToDouble_mono hzy hc hy⟩

theorem roundMagnitude_eq_of_binade {a : ℚ} (e : Int) (hlo : (2 : ℚ) ^ e ≤ a)
    (hhi : a < (2 : ℚ) ^ (e + 1)) (he : -1022 ≤ e) :
    roundMagnitude a = (roundHalfEven (a / 2 ^ (e - 52)) : ℚ) * 2 ^ (e - 52) := by
  have hpos : 0 < a := lt_of_lt_of_le (by positivity) hlo
  have a1 := (Int.zpow_le_iff_le_log (b := 2) (by norm_num) hpos).mp (by simpa using hlo)
  have a2 := (Int.lt_zpow_iff_log_lt (b := 2) (by norm_num) hpos).mp (by simpa using hhi)
  have hexp : doubleExponent a = e := by
    unfold doubleExponent
    omega
  unfold roundMagnitude doubleUlp
  rw [hexp]

theorem roundHalfEven_of_near {q : ℚ} (k : Int) (h1 : (k : ℚ) - 1 / 2 < q)
    (h2 : q < (k : ℚ) + 1 / 2) : roundHalfEven q = k := by
  unfold roundHalfEven
  rcases le_or_lt (k : ℚ) q with h | h
  · have hf : ⌊q⌋ = k := Int.floor_eq_iff.mpr ⟨h, by linarith⟩
    rw [hf, if_pos (by linarith)]
  · have hf : ⌊q⌋ = k - 1 := Int.floor_eq_iff.mpr ⟨by push_cast; linarith, by push_cast; linarith⟩
    rw [hf, if_neg (by push_cast; linarith), if_pos (by push_cast; linarith)]
    omega

theorem roundHalfEven_tie_odd (f : Int) (hodd : f % 2 = 1) :
    roundHalfEven ((f : ℚ) + 1 / 2) = f + 1 := by
  unfold roundHalfEven
  have hf : ⌊(f : ℚ) + 1 / 2⌋ = f := Int.floor_eq_iff.mpr ⟨by linarith, by linarith⟩
  rw [hf, if_neg (by norm_num), if_neg (by norm_num), if_neg (by omega)]

theorem roundToDouble_of_pos {a : ℚ} (ha : 0 < a) (h : roundMagnitude a < 2 ^ 1024) :
    roundToDouble a = some (roundMagnitude a) := by
  unfold roundToDouble
  rw [abs_of_pos ha, if_pos h, if_neg (not_lt.mpr ha.le)]

theorem roundToDouble_one : roundToDouble 1 = some 1 := by
  have h := roundToDouble_normal 4503599627370496 0 (by norm_num) (by norm_num)
    (by norm_num) (by norm_num)
  have e : ((4503599627370496 : Int) : ℚ) * 2 ^ ((0 : Int) - 52) = 1 := by
    norm_num
  rwa [e] at h

theorem roundToDouble_two_pow_31 : roundToDouble 2147483648 = some 2147483648 := by
  have h := roundToDouble_normal 4503599627370496 31 (by norm_num) (by norm_num)
    (by norm_num) (by norm_num)
  have e : ((4503599627370496 : Int) : ℚ) * 2 ^ ((31 : Int) - 52) = 2147483648 := by
    norm_num
  rwa [e] at h


/-- The steps of one call of `_randomDouble`, all finite. -/
theorem randomDouble_steps (RAND_MAX r : Int) (min max d top : ℚ)
    (hR0 : 0 < RAND_MAX) (hR1 : RAND_MAX ≤ 2147483647) (hr0 : 0 ≤ r) (hr1 : r ≤ RAND_MAX)
    (hmin : roundToDouble min = some min)
    (hd : roundToDouble (max - min) = some d) (hd0 : 0 ≤ d)
    (htop : roundToDouble (min + d) = some top) :
    ∃ x y t p v, roundToDouble (r : ℚ) = some x ∧ roundToDouble (RAND_MAX : ℚ) = some y
      ∧ 1 ≤ y ∧ roundToDouble (x / y) = some t ∧ 0 ≤ t
      ∧ roundToDouble (t * d) = some p
      ∧ roundToDouble (min + p) = some v ∧ min ≤ v ∧ v ≤ top
      ∧ _randomDouble RAND_MAX r min max = some v := by
  have hRq : (1 : ℚ) ≤ (RAND_MAX : ℚ) := by exact_mod_cast (by omega : (1 : Int) ≤ RAND_MAX)
  have hRq2 : (RAND_MAX : ℚ) ≤ 2147483648 := by
    exact_mod_cast (by omega : RAND_MAX ≤ (2147483648 : Int))
  have hrq0 : (0 : ℚ) ≤ (r : ℚ) := by exact_mod_cast hr0
  have hrq1 : (r : ℚ) ≤ (RAND_MAX : ℚ) := by exact_mod_cast hr1
  obtain ⟨y, hy, hy1, _⟩ :=
    roundToDouble_between hRq hRq2 roundToDouble_one roundToDouble_two_pow_31
  obtain ⟨x, hx, hx0, hxy⟩ := roundToDouble_between hrq0 hrq1 roundToDouble_zero hy
  have hypos : 0 < y := by linarith
  obtain ⟨t, ht, ht0, ht1⟩ :=
    roundToDouble_between (div_nonneg hx0 hypos.le) ((div_le_one hypos).mpr hxy)
      roundToDouble_zero roundToDouble_one
  obtain ⟨p, hp, hp0, hp1⟩ :=
    roundToDouble_between (mul_nonneg ht0 hd0)
      (by nlinarith : t * d ≤ d) roundToDouble_zero (roundToDouble_idem hd)
  obtain ⟨v, hv, hv0, hv1⟩ :=
    roundToDouble_between (by linarith : min ≤ min + p) (by linarith : min + p ≤ min + d)
      hmin htop
  refine ⟨x, y, t, p, v, hx, hy, hy1, ht, ht0, hp, hv, hv0, hv1, ?_⟩
  unfold _randomDouble
  simp only [hx, hy, Option.bind_eq_bind, Option.some_bind, if_neg hypos.ne', ht, hd, hp, hv]

theorem randomDouble_at_zero (RAND_MAX : Int) (min max d top : ℚ)
    (hR0 : 0 < RAND_MAX) (hR1 : RAND_MAX ≤ 2147483647)
    (hmin : roundToDouble min = some min)
    (hd : roundToDouble (max - min) = some d) (hd0 : 0 ≤ d)
    (htop : roundToDouble (min + d) = some top) :
    _randomDouble RAND_MAX 0 min max = some min := by
  obtain ⟨x, y, t, p, v, hx, _, _, ht, _, hp, hv, _, _, hrd⟩ :=
    randomDouble_steps RAND_MAX 0 min max d top hR0 hR1 (le_refl 0) hR0.le hmin hd hd0 htop
  rw [Int.cast_zero, roundToDouble_zero] at hx
  obtain rfl : 0 = x := Option.some.inj hx
  rw [zero_div, roundToDouble_zero] at ht
  obtain rfl : 0 = t := Option.some.inj ht
  rw [zero_mul, roundToDouble_zero] at hp
  obtain rfl : 0 = p := Option.some.inj hp
  rw [add_zero, hmin] at hv
  rw [hrd, ← hv]

theorem randomDouble_at_RAND_MAX (RAND_MAX : Int) (min max d top : ℚ)
    (hR0 : 0 < RAND_MAX) (hR1 : RAND_MAX ≤ 2147483647)
    (hmin : roundToDouble min = some min)
    (hd : roundToDouble (max - min) = some d) (hd0 : 0 ≤ d)
    (htop : roundToDouble (min + d) = some top) :
    _randomDouble RAND_MAX RAND_MAX min max = some top := by
  obtain ⟨x, y, t, p, v, hx, hy, hy1, ht, _, hp, hv, _, _, hrd⟩ :=
    randomDouble_steps RAND_MAX RAND_MAX min max d top hR0 hR1 hR0.le (le_refl _) hmin hd hd0
      htop
  obtain rfl : x = y := Option.some.inj (hx.symm.trans hy)
  rw [div_self (by linarith : x ≠ 0), roundToDouble_one] at ht
  obtain rfl : 1 = t := Option.some.inj ht
  rw [one_mul, roundToDouble_idem hd] at hp
  obtain rfl : d = p := Option.some.inj hp
  rw [htop] at hv
  rw [hrd, ← hv]

theorem randomDouble_mono_draw (RAND_MAX r1 r2 : Int) (min max d top : ℚ)
    (hR0 : 0 < RAND_MAX) (hR1 : RAND_MAX ≤ 2147483647)
    (h0 : 0 ≤ r1) (h12 : r1 ≤ r2) (h2 : r2 ≤ RAND_MAX)
    (hmin : roundToDouble min = some min)
    (hd : roundToDouble (max - min) = some d) (hd0 : 0 ≤ d)
    (htop : roundToDouble (min + d) = some top) :
    ∃ v1 v2, _randomDouble RAND_MAX r1 min max = some v1
      ∧ _randomDouble RAND_MAX r2 min max = some v2 ∧ v1 ≤ v2 := by
  obtain ⟨x1, y1, t1, p1, v1, hx1, hy1, hy1', ht1, _, hp1, hv1, _, _, hrd1⟩ :=
    randomDouble_steps RAND_MAX r1 min max d top hR0 hR1 h0 (by omega) hmin hd hd0 htop
  obtain ⟨x2, y2, t2, p2, v2, hx2, hy2, _, ht2, _, hp2, hv2, _, _, hrd2⟩ :=
    randomDouble_steps RAND_MAX r2 min max d top hR0 hR1 (by omega) h2 hmin hd hd0 htop
  obtain rfl : y1 = y2 := Option.some.inj (hy1.symm.trans hy2)
  have hx : x1 ≤ x2 := roundToDouble_mono (by exact_mod_cast h12) hx1 hx2
  have ht : t1 ≤ t2 :=
    roundToDouble_mono (div_le_div_of_nonneg_right hx (by linarith)) ht1 ht2
  have hp : p1 ≤ p2 := roundToDouble_mono (mul_le_mul_of_nonneg_right ht hd0) hp1 hp2
  have hv : v1 ≤ v2 := roundToDouble_mono (by linarith) hv1 hv2
  exact ⟨v1, v2, hrd1, hrd2, hv⟩

theorem normal_lt_two_pow_1024 (m e : Int) (h2 : m < 9007199254740992)
    (he2 : e ≤ 1023) : (m : ℚ) * 2 ^ (e - 52) < 2 ^ 1024 := by
  have hu : (0 : ℚ) < 2 ^ (e - 52) := by positivity
  have hm2 : (m : ℚ) < (9007199254740992 : ℚ) := by exact_mod_cast h2
  have a1 := mul_lt_mul_of_pos_right hm2 hu
  rw [mul_comm (9007199254740992 : ℚ), two_zpow_sub_mul_succ] at a1
  have a2 : (2 : ℚ) ^ (e + 1) ≤ 2 ^ ((1024 : ℕ) : Int) :=
    zpow_le_zpow_right₀ (by norm_num) (by omega)
  rw [zpow_natCast] at a2
  linarith

/-- A value half-way between the doubles `f * 2^(e-52)` and `(f+1) * 2^(e-52)`,
`f` odd, rounds to the upper one, whose significand is even. -/
theorem roundToDouble_tie_odd (f e : Int) (h1 : 4503599627370496 ≤ f)
    (h2 : f + 1 < 9007199254740992) (hodd : f % 2 = 1) (he : -1022 ≤ e) (he2 : e ≤ 1023) :
    roundToDouble (((f : ℚ) + 1 / 2) * 2 ^ (e - 52))
      = some (((f + 1 : Int) : ℚ) * 2 ^ (e - 52)) := by
  have hu : (0 : ℚ) < 2 ^ (e - 52) := by positivity
  have hf1 : (4503599627370496 : ℚ) ≤ (f : ℚ) := by exact_mod_cast h1
  have hf2 : (f : ℚ) + 1 < (9007199254740992 : ℚ) := by exact_mod_cast h2
  have hlo : (2 : ℚ) ^ e ≤ ((f : ℚ) + 1 / 2) * 2 ^ (e - 52) := by
    rw [← two_zpow_sub_mul e, mul_comm]
    exact mul_le_mul_of_nonneg_right (by linarith) hu.le
  have hhi : ((f : ℚ) + 1 / 2) * 2 ^ (e - 52) < (2 : ℚ) ^ (e + 1) := by
    rw [← two_zpow_sub_mul_succ e, mul_comm ((2 : ℚ) ^ (e - 52))]
    exact mul_lt_mul_of_pos_right (by linarith) hu
  have hrm := roundMagnitude_eq_of_binade e hlo hhi he
  rw [mul_div_assoc, div_self hu.ne', mul_one, roundHalfEven_tie_odd f hodd] at hrm
  have hpos : (0 : ℚ) < ((f : ℚ) + 1 / 2) * 2 ^ (e - 52) := lt_of_lt_of_le (by positivity) hlo
  rw [roundToDouble_of_pos hpos (by rw [hrm]; exact normal_lt_two_pow_1024 _ _ h2 he2),
    hrm]

/-- A value within half a unit in the last place of the double `k * 2^(e-52)`
of its own binade rounds to it. -/
theorem roundToDouble_of_near {a : ℚ} (k e : Int) (hlo : (2 : ℚ) ^ e ≤ a)
    (hhi : a < (2 : ℚ) ^ (e + 1)) (he : -1022 ≤ e) (he2 : e ≤ 1023)
    (hk : k < 9007199254740992)
    (h1 : (k : ℚ) - 1 / 2 < a / 2 ^ (e - 52)) (h2 : a / 2 ^ (e - 52) < (k : ℚ) + 1 / 2) :
    roundToDouble a = some ((k : ℚ) * 2 ^ (e - 52)) := by
  have hpos : 0 < a := lt_of_lt_of_le (by positivity) hlo
  have hrm := roundMagnitude_eq_of_binade e hlo hhi he
  rw [roundHalfEven_of_near k h1 h2] at hrm
  rw [roundToDouble_of_pos hpos (by rw [hrm]; exact normal_lt_two_pow_1024 _ _ hk he2), hrm]

theorem double_of_0_3 :
    roundToDouble (3 / 10) = some (5404319552844595 / 18014398509481984) := by
  have h := roundToDouble_of_near (a := 3 / 10) 5404319552844595 (-2)
    (by norm_num) (by norm_num) (by norm_num) (by norm_num) (by norm_num)
    (by norm_num) (by norm_num)
  rw [h]
  norm_num

theorem double_of_0_9 :
    roundToDouble (9 / 10) = some (8106479329266893 / 9007199254740992) := by
  have h := roundToDouble_of_near (a := 9 / 10) 8106479329266893 (-1)
    (by norm_num) (by norm_num) (by norm_num) (by norm_num) (by norm_num)
    (by norm_num) (by norm_num)
  rw [h]
  norm_num

theorem double_0_9_sub_0_3 :
    roundToDouble (8106479329266893 / 9007199254740992 - 5404319552844595 / 18014398509481984)
      = some (5404319552844596 / 9007199254740992) := by
  have h := roundToDouble_tie_odd 5404319552844595 (-1) (by norm_num) (by norm_num)
    (by norm_num) (by norm_num) (by norm_num)
  have e1 : (((5404319552844595 : Int) : ℚ) + 1 / 2) * 2 ^ ((-1 : Int) - 52)
      = 8106479329266893 / 9007199254740992 - 5404319552844595 / 18014398509481984 := by
    norm_num
  have e2 : (((5404319552844595 + 1 : Int) : Int) : ℚ) * 2 ^ ((-1 : Int) - 52)
      = 5404319552844596 / 9007199254740992 := by
    norm_num
  rw [e1, e2] at h
  exact h

theorem double_0_3_add_difference :
    roundToDouble (5404319552844595 / 18014398509481984 + 5404319552844596 / 9007199254740992)
      = some (8106479329266894 / 9007199254740992) := by
  have h := roundToDouble_tie_odd 8106479329266893 (-1) (by norm_num) (by norm_num)
    (by norm_num) (by norm_num) (by norm_num)
  have e1 : (((8106479329266893 : Int) : ℚ) + 1 / 2) * 2 ^ ((-1 : Int) - 52)
      = 5404319552844595 / 18014398509481984 + 5404319552844596 / 9007199254740992 := by
    norm_num
  have e2 : (((8106479329266893 + 1 : Int) : Int) : ℚ) * 2 ^ ((-1 : Int) - 52)
      = 8106479329266894 / 9007199254740992 := by
    norm_num
  rw [e1, e2] at h
  exact h

/-- C13 (as stated, refuted): in double arithmetic the result is not always at
most `max`, nor equal to `max` at `r = RAND_MAX`.  With `min` the double of
0.3, `max` the double of 0.9 and `r = RAND_MAX = 2147483647`, the difference
`max - min` rounds up to 0.6000000000000001 and the sum rounds up again: the
call returns 0.9000000000000001, the double next above `max`. -/
theorem randomDouble_exceeds_max :
    roundToDouble (3 / 10) = some (5404319552844595 / 18014398509481984)
      ∧ roundToDouble (9 / 10) = some (8106479329266893 / 9007199254740992)
      ∧ (5404319552844595 / 18014398509481984 : ℚ) ≤ 8106479329266893 / 9007199254740992
      ∧ _randomDouble 2147483647 2147483647 (5404319552844595 / 18014398509481984)
          (8106479329266893 / 9007199254740992)
          = some (8106479329266894 / 9007199254740992)
      ∧ (8106479329266893 / 9007199254740992 : ℚ) < 8106479329266894 / 9007199254740992 := by
  refine ⟨double_of_0_3, double_of_0_9, by norm_num, ?_, by norm_num⟩
  exact randomDouble_at_RAND_MAX 2147483647 _ _ _ _ (by norm_num) (by norm_num)
    (roundToDouble_idem double_of_0_3) double_0_9_sub_0_3 (by norm_num)
    double_0_3_add_difference

/-- C13 (amended): with the draw `r` an integer between 0 and `RAND_MAX` and
IEEE-754 double arithmetic, for doubles `min ≤ max` for which neither
`max - min` nor `min + (max - min)` overflows, `_randomDouble(min, max)` is a
finite double between `min` and `top`, where `top` is
`min + (max - min)` as computed in double arithmetic; it equals `min` at
`r = 0` and `top` at `r = RAND_MAX`, is non-decreasing in `r`, and equals `min`
for every `r` when `min = max`. -/
theorem randomDouble_rounded_range (RAND_MAX r : Int) (min max d top : ℚ)
    (hR0 : 0 < RAND_MAX) (hR1 : RAND_MAX ≤ 2147483647) (hr0 : 0 ≤ r) (hr1 : r ≤ RAND_MAX)
    (hmin : roundToDouble min = some min) (hmm : min ≤ max)
    (hd : roundToDouble (max - min) = some d) (htop : roundToDouble (min + d) = some top) :
    (∃ v, _randomDouble RAND_MAX r min max = some v ∧ min ≤ v ∧ v ≤ top)
      ∧ _randomDouble RAND_MAX 0 min max = some min
      ∧ _randomDouble RAND_MAX RAND_MAX min max = some top
      ∧ (∀ r1 r2 : Int, 0 ≤ r1 → r1 ≤ r2 → r2 ≤ RAND_MAX →
          ∃ v1 v2, _randomDouble RAND_MAX r1 min max = some v1
            ∧ _randomDouble RAND_MAX r2 min max = some v2 ∧ v1 ≤ v2)
      ∧ (∀ r3 : Int, 0 ≤ r3 → r3 ≤ RAND_MAX →
          _randomDouble RAND_MAX r3 min min = some min) := by
  have hd0 : 0 ≤ d := roundToDouble_mono (sub_nonneg.mpr hmm) roundToDouble_zero hd
  refine ⟨?_, randomDouble_at_zero RAND_MAX min max d top hR0 hR1 hmin hd hd0 htop,
    randomDouble_at_RAND_MAX RAND_MAX min max d top hR0 hR1 hmin hd hd0 htop,
    fun r1 r2 h0 h12 h2 =>
      randomDouble_mono_draw RAND_MAX r1 r2 min max d top hR0 hR1 h0 h12 h2 hmin hd hd0 htop,
    ?_⟩
  · obtain ⟨_, _, _, _, v, _, _, _, _, _, _, _, hv0, hv1, hrd⟩ :=
      randomDouble_steps RAND_MAX r min max d top hR0 hR1 hr0 hr1 hmin hd hd0 htop
    exact ⟨v, hrd, hv0, hv1⟩
  · intro r3 h0 h1
    obtain ⟨_, _, _, _, v, _, _, _, _, _, _, _, hv0, hv1, hrd⟩ :=
      randomDouble_steps RAND_MAX r3 min min 0 min hR0 hR1 h0 h1 hmin
        (by rw [sub_self]; exact roundToDouble_zero) (le_refl 0)
        (by rw [add_zero]; exact hmin)
    rw [hrd, le_antisymm hv1 hv0]

theorem randomDouble_rounded_range_witness :
    (∃ v, _randomDouble 2147483647 1000 (5404319552844595 / 18014398509481984)
          (8106479329266893 / 9007199254740992) = some v
        ∧ 5404319552844595 / 18014398509481984 ≤ v
        ∧ v ≤ 8106479329266894 / 9007199254740992)
      ∧ _randomDouble 2147483647 0 (5404319552844595 / 18014398509481984)
          (8106479329266893 / 9007199254740992)
          = some (5404319552844595 / 18014398509481984)
      ∧ _randomDouble 2147483647 2147483647 (5404319552844595 / 18014398509481984)
          (8106479329266893 / 9007199254740992)
          = some (8106479329266894 / 9007199254740992)
      ∧ (∀ r1 r2 : Int, 0 ≤ r1 → r1 ≤ r2 → r2 ≤ 2147483647 →
          ∃ v1 v2, _randomDouble 2147483647 r1 (5404319552844595 / 18014398509481984)
              (8106479329266893 / 9007199254740992) = some v1
            ∧ _randomDouble 2147483647 r2 (5404319552844595 / 18014398509481984)
              (8106479329266893 / 9007199254740992) = some v2 ∧ v1 ≤ v2)
      ∧ (∀ r3 : Int, 0 ≤ r3 → r3 ≤ 2147483647 →
          _randomDouble 2147483647 r3 (5404319552844595 / 18014398509481984)
              (5404319552844595 / 18014398509481984)
            = some (5404319552844595 / 18014398509481984)) :=
  randomDouble_rounded_range 2147483647 1000 _ _ _ _ (by norm_num) (by norm_num)
    (by norm_num) (by norm_num) (roundToDouble_idem double_of_0_3) (by norm_num)
    double_0_9_sub_0_3 double_0_3_add_difference

/-! ## Consistency of the default configuration -/

theorem wrapInt32_eq_self (x : Int) (h0 : 0 ≤ x) (h1 : x < 2147483648) : wrapInt32 x = x := by
  unfold wrapInt32
  omega

theorem wrapUInt32_eq_self (x : Int) (h0 : 0 ≤ x) (h1 : x < 4294967296) : wrapUInt32 x = x := by
  unfold wrapUInt32
  omega

/-- C14: the default configuration is consistent.  Every default min/max pair
is ordered (wavecrest curvature 0.4 and 1.0, particle energy 0.1 and 60,
turbulence 100 and 200, dust turbulence factor 0.75 and 1.0, lifetime 0 and 7,
foam density 20 and 45); the default maximum particle count 10e6 does not
exceed the hard limit 357e6; the hard limit is below `2^31`.  Hence a particle
count within the limit is unchanged by conversion to `int`, as in
`getMaxNumDiffuseParticles`, and for a vector of at most that many items no
value taken by the index variables of `_removeItemsFromVector` (the read index
and its increment as `unsigned int`; `(int)items.size()`, `currentidx` and its
increment, `numRemoved` and the counter of the second loop as `int`) wraps. -/
theorem default_configuration_consistent :
    ((DiffuseParticleSimulation.fresh._minWavecrestCurvature = 0.4
        ∧ DiffuseParticleSimulation.fresh._maxWavecrestCurvature = 1.0
        ∧ DiffuseParticleSimulation.fresh._minWavecrestCurvature
            ≤ DiffuseParticleSimulation.fresh._maxWavecrestCurvature)
      ∧ (DiffuseParticleSimulation.fresh._minParticleEnergy = 0.1
        ∧ DiffuseParticleSimulation.fresh._maxParticleEnergy = 60
        ∧ DiffuseParticleSimulation.fresh._minParticleEnergy
            ≤ DiffuseParticleSimulation.fresh._maxParticleEnergy)
      ∧ (DiffuseParticleSimulation.fresh._minTurbulence = 100
        ∧ DiffuseParticleSimulation.fresh._maxTurbulence = 200
        ∧ DiffuseParticleSimulation.fresh._minTurbulence
            ≤ DiffuseParticleSimulation.fresh._maxTurbulence)
      ∧ (DiffuseParticleSimulation.fresh._minDustTurbulenceFactor = 0.75
        ∧ DiffuseParticleSimulation.fresh._maxDustTurbulenceFactor = 1.0
        ∧ DiffuseParticleSimulation.fresh._minDustTurbulenceFactor
            ≤ DiffuseParticleSimulation.fresh._maxDustTurbulenceFactor)
      ∧ (DiffuseParticleSimulation.fresh._minDiffuseParticleLifetime = 0
        ∧ DiffuseParticleSimulation.fresh._maxDiffuseParticleLifetime = 7
        ∧ DiffuseParticleSimulation.fresh._minDiffuseParticleLifetime
            ≤ DiffuseParticleSimulation.fresh._maxDiffuseParticleLifetime)
      ∧ (DiffuseParticleSimulation.fresh._minFoamDensity = 20
        ∧ DiffuseParticleSimulation.fresh._maxFoamDensity = 45
        ∧ DiffuseParticleSimulation.fresh._minFoamDensity
            ≤ DiffuseParticleSimulation.fresh._maxFoamDensity))
    ∧ (DiffuseParticleSimulation.fresh._maxNumDiffuseParticles = 10000000
        ∧ DiffuseParticleSimulation.fresh._maxNumDiffuseParticlesLimit = 357000000
        ∧ DiffuseParticleSimulation.fresh._maxNumDiffuseParticles
            ≤ DiffuseParticleSimulation.fresh._maxNumDiffuseParticlesLimit
        ∧ DiffuseParticleSimulation.fresh._maxNumDiffuseParticlesLimit < 2 ^ 31)
    ∧ (∀ n : Nat, n ≤ DiffuseParticleSimulation.fresh._maxNumDiffuseParticlesLimit →
        wrapInt32 (n : Int) = (n : Int))
    ∧ (∀ s : DiffuseParticleSimulation,
        s._maxNumDiffuseParticles ≤ DiffuseParticleSimulation.fresh._maxNumDiffuseParticlesLimit →
        wrapInt32 (getMaxNumDiffuseParticles s : Int) = (getMaxNumDiffuseParticles s : Int))
    ∧ (∀ (T : Type) (items : List T) (isRemoved : List Bool),
        items.length = isRemoved.length →
        items.length ≤ DiffuseParticleSimulation.fresh._maxNumDiffuseParticlesLimit →
        wrapInt32 (items.length : Int) = (items.length : Int)
          ∧ (∀ p ∈ compactLoopTrace isRemoved 0 items 0,
              wrapUInt32 (p.1 : Int) = (p.1 : Int)
                ∧ wrapUInt32 ((p.1 : Int) + 1) = (p.1 : Int) + 1
                ∧ wrapInt32 (p.2 : Int) = (p.2 : Int)
                ∧ wrapInt32 ((p.2 : Int) + 1) = (p.2 : Int) + 1)
          ∧ (∃ (items1 : List T) (currentidx : Nat),
              compactLoop isRemoved 0 items 0 = some (items1, currentidx)
                ∧ wrapInt32 ((items1.length : Int) - (currentidx : Int))
                    = (items1.length : Int) - (currentidx : Int)
                ∧ ∀ j : Int, 0 ≤ j → j ≤ (items1.length : Int) - (currentidx : Int) →
                    wrapInt32 j = j)) := by
  have hlimit : DiffuseParticleSimulation.fresh._maxNumDiffuseParticlesLimit = 357000000 := rfl
  refine ⟨?_, ⟨rfl, rfl, ?_, ?_⟩, ?_, ?_, ?_⟩
  · simp only [DiffuseParticleSimulation.fresh]
    norm_num
  · rw [hlimit]; decide
  · rw [hlimit]; norm_num
  · intro n hn
    rw [hlimit] at hn
    exact wrapInt32_eq_self _ (by omega) (by omega)
  · intro s hs
    rw [hlimit] at hs
    unfold getMaxNumDiffuseParticles
    exact wrapInt32_eq_self _ (by omega) (by omega)
  · intro T items isRemoved hlen hle
    rw [hlimit] at hle
    obtain ⟨_, t2⟩ :=
      compactLoopTrace_spec isRemoved items.length 0 items 0 (by simp) (by simp) (by simp) hlen
    obtain ⟨items1, h1, h2, _⟩ :=
      compactLoop_spec isRemoved items.length 0 items 0 (by simp) (by simp) (by simp) hlen
    simp only [List.drop_zero, Nat.zero_add] at h1
    have hk := keepUnflagged_length_le items isRemoved
    refine ⟨wrapInt32_eq_self _ (by omega) (by omega), ?_, ?_⟩
    · intro p hp
      obtain ⟨q1, q2, _⟩ := t2 p hp
      exact ⟨wrapUInt32_eq_self _ (by omega) (by omega),
        wrapUInt32_eq_self _ (by omega) (by omega),
        wrapInt32_eq_self _ (by omega) (by omega),
        wrapInt32_eq_self _ (by omega) (by omega)⟩
    · refine ⟨items1, (keepUnflagged items isRemoved).length, h1,
        wrapInt32_eq_self _ (by omega) (by omega), ?_⟩
      intro j hj0 hj1
      exact wrapInt32_eq_self _ hj0 (by omega)

theorem default_configuration_consistent_witness :
    wrapInt32 ((357000000 : Nat) : Int) = ((357000000 : Nat) : Int) :=
  default_configuration_consistent.2.2.1 357000000 (by decide)

end FlipFluids
